import Mathlib

/-!
Verification of the RAMCloud CoordinatorServerList and BackupSelector
(files src/CoordinatorServerList.cc and src/BackupSelector.cc) against
their natural-language specification.

The C++ code is shallowly embedded: each method becomes a Lean function on
an explicit state record.  Machine integers are modelled as `Nat` (no
overflow is relevant to the properties below); fallible methods (those
that can throw `ServerListException`) return `Option`.  Calls into
external collaborators (LogCabin, the RPC layer, MasterRecoveryManager)
are modelled by parameters for values they return and by append-only
ghost logs for the calls made to them.
-/

set_option linter.unusedVariables false

namespace RAMCloud

/-- Status of a server in the list (WireFormat ServerStatus):
UP, CRASHED, or the transient serialization-only DOWN. -/
inductive ServerStatus where
  | up
  | crashed
  | down
deriving DecidableEq

/-- A 64-bit server identifier: a 32-bit list index plus a 32-bit
generation number (`ServerId`). Equality requires both to match. -/
structure ServerId where
  index : Nat
  gen : Nat
deriving DecidableEq

/-- Service mask over the service kinds relevant to the CSL
(MASTER_SERVICE, BACKUP_SERVICE, MEMBERSHIP_SERVICE). -/
structure ServiceMask where
  master : Bool
  backup : Bool
  membership : Bool
deriving DecidableEq

/-- `UNINITIALIZED_VERSION` (= ~0lu) used for fresh verified/update
versions. -/
def UNINITIALIZED_VERSION : Nat := 2 ^ 64 - 1

/-- `CoordinatorServerList::Entry`: the per-server record.
`masterRecoveryInfo` is opaque to the CSL and modelled as a `Nat`. -/
structure Entry where
  serverId : ServerId
  serviceLocator : String
  services : ServiceMask
  expectedReadMBytesPerSec : Nat
  replicationId : Nat
  status : ServerStatus
  masterRecoveryInfo : Nat
  verifiedVersion : Nat
  updateVersion : Nat
  serverInfoLogId : Nat
  serverUpdateLogId : Nat
deriving DecidableEq

/-- Modelled from the spec: `ServerDetails::isMaster` (the header is not
under src/): a pure service-mask test, `services ∋ MASTER`. The spec's
I3 distinguishes the service test from the status
(`e.services∋MASTER ∧ e.status=UP`). -/
def Entry.isMaster (e : Entry) : Bool := e.services.master

/-- Modelled from the spec: `ServerDetails::isBackup` (the header is not
under src/): a pure service-mask test, `services ∋ BACKUP`. -/
def Entry.isBackup (e : Entry) : Bool := e.services.backup

/-- One serialized `ProtoBuf::ServerList_Entry` row, as produced by
`Entry::serialize`. -/
structure PBEntry where
  services : ServiceMask
  serverId : ServerId
  serviceLocator : String
  status : ServerStatus
  expectedReadMBytesPerSec : Nat
  replicationId : Nat
deriving DecidableEq

/-- `Entry::serialize`: project an entry onto a wire row.  The
expected-read field is serialized as 0 for non-backups. -/
def Entry.serializePB (e : Entry) : PBEntry :=
  { services := e.services
    serverId := e.serverId
    serviceLocator := e.serviceLocator
    status := e.status
    expectedReadMBytesPerSec := if e.isBackup then e.expectedReadMBytesPerSec else 0
    replicationId := e.replicationId }

/-- Type tag of a serialized `ProtoBuf::ServerList`. -/
inductive PBListType where
  | fullList
  | updateList
deriving DecidableEq

/-- A serialized `ProtoBuf::ServerList`: version stamp, type tag and the
ordered rows. -/
structure PBList where
  versionNumber : Nat
  type : PBListType
  servers : List PBEntry
deriving DecidableEq

/-- Tracker event kinds (`ServerChangeEvent`). -/
inductive ChangeKind where
  | serverAdded
  | serverCrashed
  | serverRemoved
deriving DecidableEq

/-- One position of the server list: an optional occupant plus the next
generation number to hand out for this slot. -/
structure Slot where
  entry : Option Entry
  nextGenerationNumber : Nat
deriving DecidableEq

/-- The default-constructed slot used when the vector is resized. -/
def Slot.empty : Slot := { entry := none, nextGenerationNumber := 0 }

instance : Inhabited Slot := ⟨Slot.empty⟩

/-- State of a `CoordinatorServerList`.

`update` is the pending delta (`ProtoBuf::ServerList update`)'s rows.
`published` is the append-only history of batches emplaced into the
`updates` deque by `pushUpdate`; pruning (`pruneUpdates`) only drops
already-delivered batches from the deque and is not needed by any claim,
so the history is kept whole.  `events` is the append-only log of
tracker notifications (`enqueueChange`), and `recoveries` the append-only
log of `MasterRecoveryManager::startMasterRecovery` invocations; both
calls go to collaborators outside this state. -/
structure CSL where
  serverList : List Slot
  numberOfMasters : Nat
  numberOfBackups : Nat
  version : Nat
  update : List PBEntry
  published : List PBList
  minConfirmedVersion : Nat
  numUpdatingServers : Nat
  noWorkFoundForEpoch : Nat
  nextReplicationId : Nat
  events : List (Entry × ChangeKind)
  recoveries : List Entry
deriving DecidableEq

/-- The state of a freshly constructed `CoordinatorServerList` (the
inherited `AbstractServerList` version starts at 0, `nextReplicationId`
at 1). -/
def initCSL : CSL :=
  { serverList := []
    numberOfMasters := 0
    numberOfBackups := 0
    version := 0
    update := []
    published := []
    minConfirmedVersion := 0
    numUpdatingServers := 0
    noWorkFoundForEpoch := 0
    nextReplicationId := 1
    events := []
    recoveries := [] }

/-- `CoordinatorServerList::getEntry(ServerId)` (and the bounds/identity
check shared with `iget(ServerId)` and `getReferenceFromServerId`):
the slot at the id's index must be occupied by an entry carrying exactly
this id. -/
def getEntry (st : CSL) (id : ServerId) : Option Entry :=
  match st.serverList[id.index]? with
  | some slot =>
    match slot.entry with
    | some e => if e.serverId = id then some e else none
    | none => none
  | none => none

/-- Replace the slot at index `i` (used where the C++ writes through a
reference into `serverList[i]`); out-of-range indices leave the list
unchanged (the callers below only use in-range indices). -/
def modifySlot (l : List Slot) (i : Nat) (f : Slot → Slot) : List Slot :=
  match l[i]? with
  | some s => l.set i (f s)
  | none => l

/-- Store `f` applied to the entry for `id`
(`getReferenceFromServerId` followed by a field write); `none` models
the thrown `ServerListException` when the id is absent. -/
def updateEntryAt (st : CSL) (id : ServerId) (f : Entry → Entry) : Option CSL :=
  match getEntry st id with
  | none => none
  | some e =>
    let sl := modifySlot st.serverList id.index (fun s => { s with entry := some (f e) })
    some { st with serverList := sl }

/-- `addServerInfoLogId`. -/
def addServerInfoLogId (st : CSL) (id : ServerId) (entryId : Nat) : Option CSL :=
  updateEntryAt st id (fun e => { e with serverInfoLogId := entryId })

/-- `addServerUpdateLogId`. -/
def addServerUpdateLogId (st : CSL) (id : ServerId) (entryId : Nat) : Option CSL :=
  updateEntryAt st id (fun e => { e with serverUpdateLogId := entryId })

/-- `CoordinatorServerList::crashed(lock, serverId)`: no-op if already
CRASHED, otherwise decrement the relevant counters, set CRASHED, append
the serialized row to the pending delta and notify trackers.  `none`
models the thrown exception on an invalid id. -/
def crashed (st : CSL) (id : ServerId) : Option CSL :=
  match getEntry st id with
  | none => none
  | some e =>
    if e.status = ServerStatus.crashed then some st
    else
      let st1 := if e.isMaster then { st with numberOfMasters := st.numberOfMasters - 1 } else st
      let st2 := if e.isBackup then { st1 with numberOfBackups := st1.numberOfBackups - 1 } else st1
      let e' := { e with status := ServerStatus.crashed }
      some { st2 with
        serverList := modifySlot st2.serverList id.index (fun s => { s with entry := some e' })
        update := st2.update ++ [e'.serializePB]
        events := st2.events ++ [(e', ChangeKind.serverCrashed)] }

/-- `CoordinatorServerList::remove(lock, serverId)`: mark crashed (if
not already), write the transient DOWN row into the delta, empty the
slot, and notify trackers with the removed entry. -/
def remove (st : CSL) (id : ServerId) : Option CSL :=
  match getEntry st id with
  | none => none
  | some _ =>
    match crashed st id with
    | none => none
    | some st1 =>
      match getEntry st1 id with
      | none => none
      | some e1 =>
        let e2 := { e1 with status := ServerStatus.down }
        some { st1 with
          serverList := modifySlot st1.serverList id.index (fun s => { s with entry := none })
          update := st1.update ++ [e2.serializePB]
          events := st1.events ++ [(e2, ChangeKind.serverRemoved)] }

/-- The fields a freshly constructed `Entry(serverId, locator, services)`
holds. -/
def mkEntry (id : ServerId) (locator : String) (services : ServiceMask) : Entry :=
  { serverId := id
    serviceLocator := locator
    services := services
    expectedReadMBytesPerSec := 0
    replicationId := 0
    status := ServerStatus.up
    masterRecoveryInfo := 0
    verifiedVersion := UNINITIALIZED_VERSION
    updateVersion := UNINITIALIZED_VERSION
    serverInfoLogId := 0
    serverUpdateLogId := 0 }

/-- `serverList.resize(n)` when growing: pad with value-initialized
slots. -/
def resizeTo (l : List Slot) (n : Nat) : List Slot :=
  if n ≤ l.length then l else l ++ List.replicate (n - l.length) Slot.empty

/-- `CoordinatorServerList::add(lock, serverId, locator, services,
readSpeed)`: resize if needed, bump the slot's next generation to
`gen+1`, install the fresh UP entry, bump counters, record the backup
read speed, append the ADD row and notify trackers. -/
def add (st : CSL) (id : ServerId) (locator : String) (services : ServiceMask)
    (readSpeed : Nat) : CSL :=
  let l := resizeTo st.serverList (id.index + 1)
  let e0 := mkEntry id locator services
  let e1 := if services.backup then { e0 with expectedReadMBytesPerSec := readSpeed } else e0
  let l' := l.set id.index { entry := some e1, nextGenerationNumber := id.gen + 1 }
  let nm := if services.master then st.numberOfMasters + 1 else st.numberOfMasters
  let nb := if services.backup then st.numberOfBackups + 1 else st.numberOfBackups
  { st with
    serverList := l'
    numberOfMasters := nm
    numberOfBackups := nb
    update := st.update ++ [e1.serializePB]
    events := st.events ++ [(e1, ChangeKind.serverAdded)] }

/-- `CoordinatorServerList::firstFreeIndex` before any resize: the first
free index ≥ 1, or the current size (at least 1) when none is free. -/
def firstFreeIndex (l : List Slot) : Nat :=
  match (List.range l.length).find? (fun i => decide (1 ≤ i) && (l.getD i Slot.empty).entry.isNone) with
  | some i => i
  | none => max l.length 1

/-- `CoordinatorServerList::generateUniqueId(lock)`: take the first free
index, resize if needed, mint the id from the slot's next generation
number, bump it, and park a placeholder entry (empty locator and mask)
in the slot. -/
def generateUniqueId (st : CSL) : ServerId × CSL :=
  let idx := firstFreeIndex st.serverList
  let l := resizeTo st.serverList (idx + 1)
  let slot := l.getD idx Slot.empty
  let id : ServerId := { index := idx, gen := slot.nextGenerationNumber }
  let l' := l.set idx { entry := some (mkEntry id "" { master := false, backup := false, membership := false })
                        nextGenerationNumber := slot.nextGenerationNumber + 1 }
  (id, { st with serverList := l' })

/-- `CoordinatorServerList::setReplicationId(lock, serverId, id)`: look
the entry up (`none` = thrown exception), no-op unless it is UP,
otherwise store the new replication id and append the updated row to
the pending delta. -/
def setReplicationId (st : CSL) (id : ServerId) (replicationId : Nat) : Option CSL :=
  match getEntry st id with
  | none => none
  | some e =>
    if e.status ≠ ServerStatus.up then some st
    else
      let e' := { e with replicationId := replicationId }
      some { st with
        serverList := modifySlot st.serverList id.index (fun s => { s with entry := some e' })
        update := st.update ++ [e'.serializePB] }

/-- `CoordinatorServerList::assignReplicationGroup`: walk the chosen
ids; return `false` on the first id that is no longer in the list
(`iget` fails), and set each present member's replication id (the
lookup inside `setReplicationId` is the `iget` check: it cannot fail
once `iget` has succeeded, which is why a single `match` is faithful). -/
def assignReplicationGroup (st : CSL) (replicationId : Nat) :
    List ServerId → Bool × CSL
  | [] => (true, st)
  | bid :: rest =>
    match setReplicationId st bid replicationId with
    | none => (false, st)
    | some st' => assignReplicationGroup st' replicationId rest

/-- Scan (`for i in 0..isize()`) collecting the free backups of
`createReplicationGroup`: slots occupied by a backup-service entry with
`replicationId == 0` — note the code does not test `status`. -/
def freeBackupsOf (st : CSL) : List ServerId :=
  (st.serverList.filterMap Slot.entry).filterMap
    (fun e => if e.isBackup && e.replicationId == 0 then some e.serverId else none)

/-- The `while (freeBackups.size() >= 3)` loop of
`createReplicationGroup`: pop three ids off the back of the vector into
`group`, assign them `nextReplicationId`, and bump it.  The `fuel`
argument only encodes the loop's termination measure (each pass removes
three candidates, so `|freeBackups|` passes always suffice); it is
structurally recursive so that the function evaluates by reduction. -/
def crgLoop (st : CSL) (free : List ServerId) : Nat → CSL
  | 0 => st
  | fuel + 1 =>
    if 3 ≤ free.length then
      let group := (free.drop (free.length - 3)).reverse
      let st1 := (assignReplicationGroup st st.nextReplicationId group).2
      let st2 := { st1 with nextReplicationId := st1.nextReplicationId + 1 }
      crgLoop st2 (free.take (free.length - 3)) fuel
    else st

/-- `CoordinatorServerList::createReplicationGroup(lock)`. -/
def createReplicationGroup (st : CSL) : CSL :=
  crgLoop st (freeBackupsOf st) (freeBackupsOf st).length

/-- The scan of `removeReplicationGroup`: at each index, push a backup
whose replication id equals `groupId`, then (inside the same loop, as
written in the source) re-assign 0 to the whole group collected so far
whenever it is non-empty. -/
def rrgLoop (gid : Nat) (st : CSL) (group : List ServerId) : List Nat → CSL
  | [] => st
  | i :: rest =>
    let group' :=
      match (st.serverList.getD i Slot.empty).entry with
      | some e =>
        if e.isBackup && e.replicationId == gid then group ++ [e.serverId] else group
      | none => group
    let st' := if group' = [] then st else (assignReplicationGroup st 0 group').2
    rrgLoop gid st' group' rest

/-- `CoordinatorServerList::removeReplicationGroup(lock, groupId)`:
no-op for group 0, otherwise the scan above over all indices. -/
def removeReplicationGroup (st : CSL) (gid : Nat) : CSL :=
  if gid = 0 then st
  else rrgLoop gid st [] (List.range st.serverList.length)

/-- `CoordinatorServerList::pushUpdate(lock)`: ignore an empty delta;
otherwise bump the version, stamp the delta with it and type UPDATE,
emplace it into the update buffer and clear the pending delta. -/
def pushUpdate (st : CSL) : CSL :=
  if st.update = [] then st
  else
    { st with
      version := st.version + 1
      published := st.published ++
        [{ versionNumber := st.version + 1, type := PBListType.updateList, servers := st.update }]
      update := [] }

/-- The row filter of `serialize(lock, protoBuf, services)`: a server is
emitted iff it offers MASTER and MASTER was requested, or offers BACKUP
and BACKUP was requested. -/
def serializeRows : List Slot → ServiceMask → List PBEntry
  | [], _ => []
  | s :: rest, m =>
    match s.entry with
    | none => serializeRows rest m
    | some e =>
      if (e.services.master && m.master) || (e.services.backup && m.backup) then
        e.serializePB :: serializeRows rest m
      else
        serializeRows rest m

/-- `CoordinatorServerList::serialize(lock, protoBuf, services)`: emit
the filtered rows in slot order and stamp the current version and type
FULL_LIST. -/
def serialize (st : CSL) (m : ServiceMask) : PBList :=
  { versionNumber := st.version
    type := PBListType.fullList
    servers := serializeRows st.serverList m }

/-- `ServerDown::complete(entryId)`: snapshot the entry (and its
durable-log ids), mark it crashed, remove it outright if it has no
MASTER service, unconditionally hand the pre-crash snapshot to
`MasterRecoveryManager::startMasterRecovery`, then revoke the snapshot's
replication group and try to form new ones.  The LogCabin batch
invalidation only touches the external log. -/
def serverDownComplete (st : CSL) (id : ServerId) : Option CSL :=
  match getEntry st id with
  | none => none
  | some e0 =>
    match crashed st id with
    | none => none
    | some st1 =>
      match (if e0.services.master then some st1 else remove st1 id) with
      | none => none
      | some st2 =>
        let st3 := { st2 with recoveries := st2.recoveries ++ [e0] }
        let st4 := removeReplicationGroup st3 e0.replicationId
        some (createReplicationGroup st4)

/-- `CoordinatorServerList::serverDown(lock, serverId)`:
`ServerDown(...).execute()` (the durable append only touches the
external log) followed by `pushUpdate`. -/
def serverDown (st : CSL) (id : ServerId) : Option CSL :=
  (serverDownComplete st id).map pushUpdate

/-- `EnlistServer::execute` + `EnlistServer::complete`: mint the new id,
stamp the ServerEnlisting entry id, add the entry, let the replication
group manager react if the newcomer is a backup, and stamp the
ServerEnlisted entry id.  `eid1`/`eid2` are the entry ids the external
durable log assigns to the two appends. -/
def enlistServerExecute (st : CSL) (services : ServiceMask) (readSpeed : Nat)
    (locator : String) (eid1 eid2 : Nat) : Option (ServerId × CSL) :=
  let newId := (generateUniqueId st).1
  let st1 := (generateUniqueId st).2
  match addServerInfoLogId st1 newId eid1 with
  | none => none
  | some st2 =>
    let st3 := add st2 newId locator services readSpeed
    let st4 := if services.backup then createReplicationGroup st3 else st3
    match addServerInfoLogId st4 newId eid2 with
    | none => none
    | some st5 => some (newId, st5)

/-- `CoordinatorServerList::enlistServer(replacesId, services,
readSpeed, locator)`: if the replaced id is still present, first run the
in-lock `serverDown` (which publishes the removal delta), then execute
the enlistment and publish the addition. -/
def enlistServer (st : CSL) (replacesId : ServerId) (services : ServiceMask)
    (readSpeed : Nat) (locator : String) (eid1 eid2 : Nat) :
    Option (ServerId × CSL) :=
  match (if (getEntry st replacesId).isSome then serverDown st replacesId else some st) with
  | none => none
  | some st1 =>
    match enlistServerExecute st1 services readSpeed locator eid1 eid2 with
    | none => none
    | some (newId, st2) => some (newId, pushUpdate st2)

/-- `CoordinatorServerList::removeAfterRecovery(serverId)`. -/
def removeAfterRecovery (st : CSL) (id : ServerId) : Option CSL :=
  (remove st id).map pushUpdate

/-- `CoordinatorServerList::setMasterRecoveryInfo(serverId, info)`:
write the new info through the reference, then
`SetMasterRecoveryInfo::execute`/`complete` store the ServerUpdate
durable entry id (`newEntryId`, assigned by the external log) and write
the info again.  No delta row and no version bump. -/
def setMasterRecoveryInfo (st : CSL) (id : ServerId) (info : Nat)
    (newEntryId : Nat) : Option CSL :=
  match updateEntryAt st id (fun e => { e with masterRecoveryInfo := info }) with
  | none => none
  | some st1 =>
    match addServerUpdateLogId st1 id newEntryId with
    | none => none
    | some st2 => updateEntryAt st2 id (fun e => { e with masterRecoveryInfo := info })

/-- `CoordinatorServerList::workSuccess(id)`: decrement
`numUpdatingServers` (if positive), and if the entry still exists,
commit `verifiedVersion := updateVersion` (unless they were already
equal, a logged bookkeeping error) and force a rescan when the server is
still behind. -/
def workSuccess (st : CSL) (id : ServerId) : CSL :=
  let st1 := if 0 < st.numUpdatingServers
    then { st with numUpdatingServers := st.numUpdatingServers - 1 } else st
  match getEntry st1 id with
  | none => st1
  | some e =>
    let st2 :=
      if e.verifiedVersion = e.updateVersion then st1
      else
        let e' := { e with verifiedVersion := e.updateVersion }
        let sl := modifySlot st1.serverList id.index (fun s => { s with entry := some e' })
        { st1 with serverList := sl }
    match getEntry st2 id with
    | none => st2
    | some e2 =>
      if e2.verifiedVersion < st2.version then { st2 with noWorkFoundForEpoch := 0 } else st2

/-- `CoordinatorServerList::workFailed(id)`: decrement
`numUpdatingServers` (if positive), roll `updateVersion` back to
`verifiedVersion` if the entry still exists, and force a rescan. -/
def workFailed (st : CSL) (id : ServerId) : CSL :=
  let st1 := if 0 < st.numUpdatingServers
    then { st with numUpdatingServers := st.numUpdatingServers - 1 } else st
  let st2 :=
    match getEntry st1 id with
    | none => st1
    | some e =>
      let e' := { e with updateVersion := e.verifiedVersion }
      let sl := modifySlot st1.serverList id.index (fun s => { s with entry := some e' })
      { st1 with serverList := sl }
  { st2 with noWorkFoundForEpoch := 0 }

/-- Outcome of `rpc->wait()` on a finished update RPC in `updateLoop`:
normal return, a thrown `ServerNotUpException`, or any other thrown
exception. -/
inductive RpcOutcome where
  | success
  | serverNotUp
  | otherError
deriving DecidableEq

/-- Which bookkeeping call the completion path of `updateLoop` makes for
a finished RPC. -/
inductive Bookkeeping where
  | workSuccessCall
  | workFailedCall
  | propagate
deriving DecidableEq

/-- The completion path of `updateLoop` (the `rpc->wait()` try block):
`success` starts out false, a normal return sets it true, a
`ServerNotUpException` is caught and leaves it false, any other
exception propagates out of the loop; then `workSuccess` is called if
`success` and `workFailed` otherwise. -/
def finishedRpcBookkeeping : RpcOutcome → Bookkeeping
  | RpcOutcome.success => Bookkeeping.workSuccessCall
  | RpcOutcome.serverNotUp => Bookkeeping.workFailedCall
  | RpcOutcome.otherError => Bookkeeping.propagate

/-- State effect of the completion path of `updateLoop` on the CSL for
the two non-propagating outcomes. -/
def finishedRpcEffect (st : CSL) (id : ServerId) : RpcOutcome → CSL
  | RpcOutcome.success => workSuccess st id
  | RpcOutcome.serverNotUp => workFailed st id
  | RpcOutcome.otherError => st

/-- Exchange the elements of `l` at positions `i` and `j`
(`std::swap(hostsOrder[i], hostsOrder[j])`). -/
def listSwap (l : List Nat) (i j : Nat) : List Nat :=
  (l.set i (l.getD j 0)).set j (l.getD i 0)

/-- State of a `BackupSelector` whose host list is fixed: the
permutation `hostsOrder` of host indices and the cursor
`numUsedHosts`. The hosts themselves are addressed by their index. -/
structure SelState where
  hostsOrder : List Nat
  numUsedHosts : Nat
deriving DecidableEq

/-- `BackupSelector::getRandomHost()`, with the value of
`generateRandom()` passed in as `r`: reset the cursor when a round is
complete, draw position `j = i + r % (N - i)`, swap it into position
`i`, advance the cursor and return the host index now at position `i`. -/
def getRandomHost (r : Nat) (s : SelState) : Nat × SelState :=
  let n := s.hostsOrder.length
  let used := if s.numUsedHosts ≥ n then 0 else s.numUsedHosts
  let i := used
  let j := i + r % (n - i)
  let order := listSwap s.hostsOrder i j
  (order.getD i 0, { hostsOrder := order, numUsedHosts := i + 1 })

/-- The host indices returned by consecutive `getRandomHost` calls fed
by the stream `rs` of `generateRandom()` values. -/
def runSel (s : SelState) : List Nat → List Nat
  | [] => []
  | r :: rs =>
    let p := getRandomHost r s
    p.1 :: runSel p.2 rs

/-- The selector state after consecutive `getRandomHost` calls fed by
`rs`. -/
def runSelState (s : SelState) : List Nat → SelState
  | [] => s
  | r :: rs => runSelState (getRandomHost r s).2 rs

/-! ### Basic lemmas about the slot vector -/

theorem modifySlot_length (l : List Slot) (i : Nat) (f : Slot → Slot) :
    (modifySlot l i f).length = l.length := by
  unfold modifySlot
  cases h : l[i]? with
  | none => rfl
  | some s => simp

theorem modifySlot_getElem_self (l : List Slot) (i : Nat) (f : Slot → Slot) :
    (modifySlot l i f)[i]? = (l[i]?).map f := by
  unfold modifySlot
  cases h : l[i]? with
  | none => exact h
  | some s =>
    have hi : i < l.length := by
      by_contra hn
      rw [List.getElem?_eq_none (Nat.le_of_not_lt hn)] at h
      exact absurd h (by simp)
    show (l.set i (f s))[i]? = some (f s)
    rw [List.getElem?_set_self hi]

theorem modifySlot_getElem_ne (l : List Slot) (i j : Nat) (f : Slot → Slot)
    (h : j ≠ i) : (modifySlot l i f)[j]? = l[j]? := by
  unfold modifySlot
  cases hv : l[i]? with
  | none => rfl
  | some s => exact List.getElem?_set_ne (Ne.symm h)

/-- `getEntry` unfolded into slot lookups. -/
theorem getEntry_eq (st : CSL) (id : ServerId) :
    getEntry st id =
      match st.serverList[id.index]? with
      | some slot =>
        match slot.entry with
        | some e => if e.serverId = id then some e else none
        | none => none
      | none => none := rfl

/-- A successful `getEntry` returns an entry carrying exactly the
requested id, sitting in the slot at the id's index. -/
theorem getEntry_some_iff (st : CSL) (id : ServerId) (e : Entry) :
    getEntry st id = some e ↔
      ∃ s, st.serverList[id.index]? = some s ∧ s.entry = some e ∧ e.serverId = id := by
  unfold getEntry
  constructor
  · intro h
    split at h
    · split at h
      · split at h
        · injection h with h
          subst h
          exact ⟨_, by assumption, by assumption, by assumption⟩
        · cases h
      · cases h
    · cases h
  · rintro ⟨s, hs, he, hid⟩
    simp [hs, he, hid]

/-! ### Claim C3: bookkeeping for the "server no longer up" RPC error -/

/-- C3 counterexample: in the completion path of `updateLoop`, an RPC
that finishes by throwing `ServerNotUpException` leads to a `workFailed`
call (the catch block swallows the exception but leaves `success`
false), not to the `workSuccess` the claim announces. -/
theorem claim3_counterexample :
    finishedRpcBookkeeping RpcOutcome.serverNotUp = Bookkeeping.workFailedCall ∧
    finishedRpcBookkeeping RpcOutcome.serverNotUp ≠ Bookkeeping.workSuccessCall := by
  exact ⟨rfl, by decide⟩

/-- C3 (amended): when an in-flight update RPC completes with the
"server no longer up" error the exception is swallowed (the loop
continues) but the completion is treated as a failure for bookkeeping:
`workFailed` is invoked for the target server; `workSuccess` is invoked
exactly for RPCs that complete without an exception. -/
theorem claim3_server_not_up_failure :
    finishedRpcBookkeeping RpcOutcome.serverNotUp = Bookkeeping.workFailedCall ∧
    finishedRpcBookkeeping RpcOutcome.success = Bookkeeping.workSuccessCall ∧
    (∀ st id, finishedRpcEffect st id RpcOutcome.serverNotUp = workFailed st id) ∧
    (∀ st id, finishedRpcEffect st id RpcOutcome.success = workSuccess st id) :=
  ⟨rfl, rfl, fun _ _ => rfl, fun _ _ => rfl⟩

/-! ### Claim C10: idempotence of `crashed` -/

/-- C10: invoking `crashed` on an entry that is already CRASHED returns
without modifying any state (the returned state is the input state, so
counters, delta, version and the tracker event log are all untouched and
no additional CRASHED row can be published). -/
theorem claim10_crashed_idempotent (st : CSL) (id : ServerId) (e : Entry)
    (hget : getEntry st id = some e) (hst : e.status = ServerStatus.crashed) :
    crashed st id = some st := by
  simp [crashed, hget, hst]

/-- An entry already in CRASHED state, used to witness C10. -/
def entCrashed : Entry :=
  { mkEntry { index := 1, gen := 4 } "mock:host=a" { master := true, backup := false, membership := true } with
    status := ServerStatus.crashed }

/-- A concrete list state holding `entCrashed`, used to witness C10. -/
def stCrashed : CSL :=
  { initCSL with serverList := [Slot.empty, { entry := some entCrashed, nextGenerationNumber := 5 }] }

/-- Witness for C10 at a concrete state. -/
theorem claim10_witness :
    getEntry stCrashed { index := 1, gen := 4 } = some entCrashed ∧
    entCrashed.status = ServerStatus.crashed ∧
    crashed stCrashed { index := 1, gen := 4 } = some stCrashed :=
  ⟨by decide, by decide,
    claim10_crashed_idempotent stCrashed { index := 1, gen := 4 } entCrashed (by decide) (by decide)⟩

/-! ### Claim C4: what `serialize` emits -/

/-- SPEC-WORDED definition for comparison with the code (not a
translation of the source): the spec says serialize emits "every entry
whose services intersect the requested mask", i.e. entries passing this
test on any of the three service kinds. -/
def specMaskIntersects (a b : ServiceMask) : Bool :=
  (a.master && b.master) || (a.backup && b.backup) || (a.membership && b.membership)

/-- The inclusion test actually performed by `serialize`. -/
def serializeIncluded (e : Entry) (m : ServiceMask) : Bool :=
  (e.services.master && m.master) || (e.services.backup && m.backup)

theorem serializeRows_eq (l : List Slot) (m : ServiceMask) :
    serializeRows l m =
      ((l.filterMap Slot.entry).filter (fun e => serializeIncluded e m)).map Entry.serializePB := by
  induction l with
  | nil => rfl
  | cons s rest ih =>
    cases he : s.entry with
    | none => simp [serializeRows, he, ih]
    | some e =>
      by_cases hinc : ((e.services.master && m.master) || (e.services.backup && m.backup)) = true
      · simp [serializeRows, he, hinc, ih, serializeIncluded, List.filterMap_cons]
      · simp [serializeRows, he, hinc, ih, serializeIncluded, List.filterMap_cons]

/-- A MEMBERSHIP-only UP server, used against C4. -/
def entMemb : Entry :=
  mkEntry { index := 1, gen := 0 } "mock:host=m" { master := false, backup := false, membership := true }

/-- A list state holding only `entMemb`. -/
def stMemb : CSL :=
  { initCSL with
    version := 7
    serverList := [Slot.empty, { entry := some entMemb, nextGenerationNumber := 1 }] }

/-- C4 counterexample: a server offering only the MEMBERSHIP service
intersects a MEMBERSHIP-only request mask, yet `serialize` emits no row
for it, because the code only tests the MASTER and BACKUP bits.  This
refutes "for every service kind in the mask, including MEMBERSHIP, a
server offering that service is included". -/
theorem claim4_counterexample :
    specMaskIntersects entMemb.services { master := false, backup := false, membership := true } = true ∧
    (serialize stMemb { master := false, backup := false, membership := true }).servers = [] := by
  constructor
  · rfl
  · rfl

/-- C4 (amended): `serialize(protoBuf, services)` emits exactly the
occupied entries whose services intersect the requested mask on the
MASTER or BACKUP bits (a server offering only MEMBERSHIP is skipped
even when MEMBERSHIP is requested), in increasing slot-index order, and
stamps the output with the current version and type FULL_LIST. -/
theorem claim4_serialize_rows (st : CSL) (m : ServiceMask) :
    serialize st m =
      { versionNumber := st.version
        type := PBListType.fullList
        servers :=
          ((st.serverList.filterMap Slot.entry).filter
            (fun e => serializeIncluded e m)).map Entry.serializePB } := by
  unfold serialize
  rw [serializeRows_eq]

/-! ### Claim C5: candidates considered by `createReplicationGroup` -/

/-- SPEC-WORDED definition for comparison with the code (not a
translation of the source): the spec and the claim say the candidates
are "the backups with status UP and replicationId 0". -/
def specFreeBackups (st : CSL) : List ServerId :=
  (st.serverList.filterMap Slot.entry).filterMap
    (fun e =>
      if e.isBackup && e.replicationId == 0 && (e.status == ServerStatus.up) then
        some e.serverId
      else none)

/-- An UP backup with no replication group yet. -/
def mkUpBackup (i : Nat) : Entry :=
  mkEntry { index := i, gen := 0 } "mock:host=b" { master := false, backup := true, membership := false }

/-- A CRASHED backup (still in the list, e.g. a crashed master+backup
awaiting recovery) with `replicationId = 0`. -/
def entCrashedBackup : Entry :=
  { mkEntry { index := 1, gen := 0 } "mock:host=c" { master := true, backup := true, membership := false } with
    status := ServerStatus.crashed }

/-- The failing input for C5: slot 1 holds a CRASHED backup with
`replicationId = 0`, slots 2 and 3 hold UP backups with
`replicationId = 0`. -/
def stCrashFree : CSL :=
  { initCSL with
    serverList :=
      [Slot.empty,
       { entry := some entCrashedBackup, nextGenerationNumber := 1 },
       { entry := some (mkUpBackup 2), nextGenerationNumber := 1 },
       { entry := some (mkUpBackup 3), nextGenerationNumber := 1 }]
    numberOfBackups := 2
    numberOfMasters := 0 }

/-- C5: the scan in `createReplicationGroup` never tests `status` (its
own comment says it collects backups that "are up", and the spec says
`status=UP ∧ replicationId=0`), so with only two UP candidates — too
few for a group of three per the claim — the CRASHED backup is counted
as a third candidate, a group is formed anyway, `nextReplicationId` is
consumed, and the two UP backups receive `replicationId = 1` (the
CRASHED one is skipped by `setReplicationId` and keeps 0). -/
theorem claim5_code_divergence :
    (specFreeBackups stCrashFree).length = 2 ∧
    (freeBackupsOf stCrashFree).length = 3 ∧
    (createReplicationGroup stCrashFree).nextReplicationId = 2 ∧
    getEntry (createReplicationGroup stCrashFree) { index := 2, gen := 0 } =
      some { mkUpBackup 2 with replicationId := 1 } ∧
    getEntry (createReplicationGroup stCrashFree) { index := 3, gen := 0 } =
      some { mkUpBackup 3 with replicationId := 1 } ∧
    getEntry (createReplicationGroup stCrashFree) { index := 1, gen := 0 } =
      some entCrashedBackup := by
  refine ⟨rfl, rfl, ?_, ?_, ?_, ?_⟩ <;> decide

/-! ### Claim C8: `setMasterRecoveryInfo` frame -/

/-- The state obtained by overwriting the entry in `id`'s slot with
`e'` (shorthand for the writes through `getReferenceFromServerId`
references). -/
def withEntry (st : CSL) (id : ServerId) (e' : Entry) : CSL :=
  { st with serverList := modifySlot st.serverList id.index (fun s => { s with entry := some e' }) }

theorem updateEntryAt_some (st : CSL) (id : ServerId) (e : Entry) (f : Entry → Entry)
    (h : getEntry st id = some e) :
    updateEntryAt st id f = some (withEntry st id (f e)) := by
  simp [updateEntryAt, withEntry, h]

/-- After replacing the entry in `id`'s slot with one carrying the same
id, `getEntry` returns the replacement. -/
theorem getEntry_after_replace (st : CSL) (id : ServerId) (e e' : Entry)
    (h : getEntry st id = some e) (hid : e'.serverId = e.serverId) :
    getEntry (withEntry st id e') id = some e' := by
  rcases (getEntry_some_iff st id e).mp h with ⟨s, hs, he, hsid⟩
  apply (getEntry_some_iff _ id e').mpr
  refine ⟨{ s with entry := some e' }, ?_, rfl, by rw [hid, hsid]⟩
  show (modifySlot st.serverList id.index _)[id.index]? = _
  rw [modifySlot_getElem_self, hs]
  rfl

theorem modifySlot_modifySlot (l : List Slot) (i : Nat) (f g : Slot → Slot) :
    modifySlot (modifySlot l i f) i g = modifySlot l i (fun s => g (f s)) := by
  cases h : l[i]? with
  | none => simp only [modifySlot, h]
  | some s =>
    have hi : i < l.length := by
      by_contra hn
      rw [List.getElem?_eq_none (Nat.le_of_not_lt hn)] at h
      exact absurd h (by simp)
    simp only [modifySlot, h]
    rw [List.getElem?_set_self hi]
    simp [List.set_set]

/-- Overwriting the same slot's entry twice keeps only the second
write. -/
theorem withEntry_withEntry (st : CSL) (id : ServerId) (a b : Entry) :
    withEntry (withEntry st id a) id b = withEntry st id b := by
  unfold withEntry
  simp only [modifySlot_modifySlot]

/-- The entry after `setMasterRecoveryInfo`: only `masterRecoveryInfo`
and `serverUpdateLogId` overwritten. -/
def mriUpdated (e : Entry) (info eid : Nat) : Entry :=
  { e with masterRecoveryInfo := info, serverUpdateLogId := eid }

/-- The full effect of `setMasterRecoveryInfo` on the state: only the
entry in `id`'s slot changes, and only its `masterRecoveryInfo` and
`serverUpdateLogId` fields. -/
theorem setMasterRecoveryInfo_eq (st : CSL) (id : ServerId) (e : Entry)
    (info eid : Nat) (h : getEntry st id = some e) :
    setMasterRecoveryInfo st id info eid = some (withEntry st id (mriUpdated e info eid)) := by
  have h1 := updateEntryAt_some st id e (fun x => { x with masterRecoveryInfo := info }) h
  have g1 : getEntry (withEntry st id { e with masterRecoveryInfo := info }) id =
      some { e with masterRecoveryInfo := info } :=
    getEntry_after_replace st id e _ h rfl
  have h2 := updateEntryAt_some _ id _ (fun x => { x with serverUpdateLogId := eid }) g1
  rw [withEntry_withEntry] at h2
  have g2 : getEntry (withEntry st id (mriUpdated e info eid)) id =
      some (mriUpdated e info eid) :=
    getEntry_after_replace st id e _ h rfl
  have h3 := updateEntryAt_some _ id _ (fun x => { x with masterRecoveryInfo := info }) g2
  rw [withEntry_withEntry] at h3
  simp only [mriUpdated] at h2 h3 ⊢
  simp only [setMasterRecoveryInfo, addServerUpdateLogId, h1, h2, h3]

/-- C8: for a server present in the list, `setMasterRecoveryInfo`
overwrites only that entry's `masterRecoveryInfo` and its
`serverUpdateLogId` bookkeeping field: the dissemination version is not
incremented, no row is appended to the pending delta, no batch is
published, no tracker event fires, and every other slot and the
master/backup counters are unchanged. -/
theorem claim8_set_master_recovery_info_frame (st : CSL) (id : ServerId) (e : Entry)
    (info eid : Nat) (h : getEntry st id = some e) :
    ∃ st', setMasterRecoveryInfo st id info eid = some st' ∧
      st'.version = st.version ∧
      st'.update = st.update ∧
      st'.published = st.published ∧
      st'.numberOfMasters = st.numberOfMasters ∧
      st'.numberOfBackups = st.numberOfBackups ∧
      st'.events = st.events ∧
      st'.nextReplicationId = st.nextReplicationId ∧
      (∀ j, j ≠ id.index → st'.serverList[j]? = st.serverList[j]?) ∧
      st'.serverList[id.index]? =
        (st.serverList[id.index]?).map (fun s => { s with entry := some (mriUpdated e info eid) }) := by
  refine ⟨_, setMasterRecoveryInfo_eq st id e info eid h, rfl, rfl, rfl, rfl, rfl, rfl, rfl,
    ?_, ?_⟩
  · intro j hj
    exact modifySlot_getElem_ne _ _ _ _ hj
  · exact modifySlot_getElem_self _ _ _

/-- A concrete master entry used to witness C8. -/
def entMaster : Entry :=
  mkEntry { index := 1, gen := 2 } "mock:host=x" { master := true, backup := false, membership := true }

/-- A concrete state holding `entMaster`, used to witness C8. -/
def stMaster : CSL :=
  { initCSL with
    version := 3
    numberOfMasters := 1
    serverList := [Slot.empty, { entry := some entMaster, nextGenerationNumber := 3 }] }

/-- Witness for C8 at a concrete state. -/
theorem claim8_witness :
    getEntry stMaster { index := 1, gen := 2 } = some entMaster ∧
    (∃ st', setMasterRecoveryInfo stMaster { index := 1, gen := 2 } 42 9 = some st' ∧
      st'.version = stMaster.version ∧
      st'.update = stMaster.update ∧
      st'.published = stMaster.published ∧
      st'.numberOfMasters = stMaster.numberOfMasters ∧
      st'.numberOfBackups = stMaster.numberOfBackups ∧
      st'.events = stMaster.events ∧
      st'.nextReplicationId = stMaster.nextReplicationId ∧
      (∀ j, j ≠ ServerId.index { index := 1, gen := 2 } →
        st'.serverList[j]? = stMaster.serverList[j]?) ∧
      st'.serverList[ServerId.index { index := 1, gen := 2 }]? =
        (stMaster.serverList[ServerId.index { index := 1, gen := 2 }]?).map
          (fun s => { s with entry := some (mriUpdated entMaster 42 9) })) :=
  ⟨by decide,
    claim8_set_master_recovery_info_frame stMaster { index := 1, gen := 2 } entMaster 42 9 (by decide)⟩

/-! ### Claim C1: version monotonicity -/

/-- `version` and the publication history are untouched by
`updateEntryAt`. -/
theorem vp_updateEntryAt (st st' : CSL) (id : ServerId) (f : Entry → Entry)
    (h : updateEntryAt st id f = some st') :
    st'.version = st.version ∧ st'.published = st.published := by
  unfold updateEntryAt at h
  split at h
  · cases h
  · injection h with h
    subst h
    exact ⟨rfl, rfl⟩

theorem vp_crashed (st st' : CSL) (id : ServerId) (h : crashed st id = some st') :
    st'.version = st.version ∧ st'.published = st.published := by
  unfold crashed at h
  split at h
  · cases h
  · split at h
    · injection h with h
      subst h
      exact ⟨rfl, rfl⟩
    · injection h with h
      subst h
      rename_i e _ _
      constructor <;>
        (by_cases h1 : e.isMaster = true <;> by_cases h2 : e.isBackup = true <;> simp [h1, h2])

theorem vp_remove (st st' : CSL) (id : ServerId) (h : remove st id = some st') :
    st'.version = st.version ∧ st'.published = st.published := by
  unfold remove at h
  split at h
  · cases h
  · split at h
    · cases h
    · rename_i st1 hc
      split at h
      · cases h
      · injection h with h
        subst h
        exact vp_crashed st st1 id hc

theorem vp_add (st : CSL) (id : ServerId) (loc : String) (m : ServiceMask) (rs : Nat) :
    (add st id loc m rs).version = st.version ∧ (add st id loc m rs).published = st.published :=
  ⟨rfl, rfl⟩

theorem vp_generateUniqueId (st : CSL) :
    (generateUniqueId st).2.version = st.version ∧ (generateUniqueId st).2.published = st.published :=
  ⟨rfl, rfl⟩

theorem vp_setReplicationId (st st' : CSL) (id : ServerId) (rid : Nat)
    (h : setReplicationId st id rid = some st') :
    st'.version = st.version ∧ st'.published = st.published := by
  unfold setReplicationId at h
  split at h
  · cases h
  · split at h
    · injection h with h
      subst h
      exact ⟨rfl, rfl⟩
    · injection h with h
      subst h
      exact ⟨rfl, rfl⟩

theorem vp_assignReplicationGroup (ids : List ServerId) (st : CSL) (rid : Nat) :
    (assignReplicationGroup st rid ids).2.version = st.version ∧
    (assignReplicationGroup st rid ids).2.published = st.published := by
  induction ids generalizing st with
  | nil => exact ⟨rfl, rfl⟩
  | cons bid rest ih =>
    unfold assignReplicationGroup
    cases hs : setReplicationId st bid rid with
    | none => exact ⟨rfl, rfl⟩
    | some st1 =>
      have h1 := vp_setReplicationId st st1 bid rid hs
      have h2 := ih st1
      rw [h1.1] at h2
      rw [h1.2] at h2
      exact h2

theorem vp_crgLoop (fuel : Nat) (st : CSL) (free : List ServerId) :
    (crgLoop st free fuel).version = st.version ∧
    (crgLoop st free fuel).published = st.published := by
  induction fuel generalizing st free with
  | zero => exact ⟨rfl, rfl⟩
  | succ n ih =>
    unfold crgLoop
    split
    · have h1 := vp_assignReplicationGroup ((free.drop (free.length - 3)).reverse) st st.nextReplicationId
      have h2 := ih { (assignReplicationGroup st st.nextReplicationId ((free.drop (free.length - 3)).reverse)).2 with nextReplicationId := (assignReplicationGroup st st.nextReplicationId ((free.drop (free.length - 3)).reverse)).2.nextReplicationId + 1 } (free.take (free.length - 3))
      rw [h2.1, h2.2]
      exact h1
    · exact ⟨rfl, rfl⟩

theorem vp_createReplicationGroup (st : CSL) :
    (createReplicationGroup st).version = st.version ∧
    (createReplicationGroup st).published = st.published :=
  vp_crgLoop _ st _

theorem vp_rrgLoop (is : List Nat) (gid : Nat) (st : CSL) (group : List ServerId) :
    (rrgLoop gid st group is).version = st.version ∧
    (rrgLoop gid st group is).published = st.published := by
  induction is generalizing st group with
  | nil => exact ⟨rfl, rfl⟩
  | cons i rest ih =>
    unfold rrgLoop
    dsimp only
    split
    · exact ih st _
    · constructor
      · rw [(ih _ _).1]
        exact (vp_assignReplicationGroup _ st 0).1
      · rw [(ih _ _).2]
        exact (vp_assignReplicationGroup _ st 0).2

theorem vp_removeReplicationGroup (st : CSL) (gid : Nat) :
    (removeReplicationGroup st gid).version = st.version ∧
    (removeReplicationGroup st gid).published = st.published := by
  unfold removeReplicationGroup
  split
  · exact ⟨rfl, rfl⟩
  · exact vp_rrgLoop _ gid st []

theorem vp_serverDownComplete (st st' : CSL) (id : ServerId)
    (h : serverDownComplete st id = some st') :
    st'.version = st.version ∧ st'.published = st.published := by
  unfold serverDownComplete at h
  cases hg : getEntry st id with
  | none => rw [hg] at h; cases h
  | some e0 =>
    rw [hg] at h
    cases hc : crashed st id with
    | none => rw [hc] at h; cases h
    | some st1 =>
      rw [hc] at h
      dsimp only at h
      have hvr : ∀ st2, (if e0.services.master then some st1 else remove st1 id) = some st2 →
          st2.version = st1.version ∧ st2.published = st1.published := by
        intro st2 h2
        by_cases hm : e0.services.master = true
        · simp only [hm, if_pos] at h2
          injection h2 with h2
          subst h2
          exact ⟨rfl, rfl⟩
        · simp only [hm] at h2
          simp only [if_neg, Bool.false_eq_true] at h2
          exact vp_remove st1 st2 id h2
      cases hm : (if e0.services.master then some st1 else remove st1 id) with
      | none => rw [hm] at h; cases h
      | some st2 =>
        rw [hm] at h
        injection h with h
        subst h
        have a := vp_crashed st st1 id hc
        have b := hvr st2 hm
        have c := vp_removeReplicationGroup { st2 with recoveries := st2.recoveries ++ [e0] } e0.replicationId
        have d := vp_createReplicationGroup (removeReplicationGroup { st2 with recoveries := st2.recoveries ++ [e0] } e0.replicationId)
        constructor
        · rw [d.1, c.1]
          show st2.version = st.version
          rw [b.1, a.1]
        · rw [d.2, c.2]
          show st2.published = st.published
          rw [b.2, a.2]

theorem vp_enlistServerExecute (st st' : CSL) (m : ServiceMask) (rs : Nat)
    (loc : String) (e1 e2 : Nat) (newId : ServerId)
    (h : enlistServerExecute st m rs loc e1 e2 = some (newId, st')) :
    st'.version = st.version ∧ st'.published = st.published := by
  unfold enlistServerExecute at h
  dsimp only at h
  cases h1 : addServerInfoLogId (generateUniqueId st).2 (generateUniqueId st).1 e1 with
  | none => rw [h1] at h; cases h
  | some st2 =>
    rw [h1] at h
    dsimp only at h
    have v1 := vp_updateEntryAt _ _ _ _ h1
    cases h2 : addServerInfoLogId (if m.backup then createReplicationGroup (add st2 (generateUniqueId st).1 loc m rs) else add st2 (generateUniqueId st).1 loc m rs) (generateUniqueId st).1 e2 with
    | none => rw [h2] at h; cases h
    | some st5 =>
      rw [h2] at h
      dsimp only at h
      injection h with h
      injection h with hid hst
      subst hst
      have v2 := vp_updateEntryAt _ _ _ _ h2
      have v3 : (if m.backup then createReplicationGroup (add st2 (generateUniqueId st).1 loc m rs) else add st2 (generateUniqueId st).1 loc m rs).version = st2.version ∧ (if m.backup then createReplicationGroup (add st2 (generateUniqueId st).1 loc m rs) else add st2 (generateUniqueId st).1 loc m rs).published = st2.published := by
        by_cases hb : m.backup = true
        · constructor
          · rw [if_pos hb, (vp_createReplicationGroup _).1]
            exact (vp_add st2 _ loc m rs).1
          · rw [if_pos hb, (vp_createReplicationGroup _).2]
            exact (vp_add st2 _ loc m rs).2
        · constructor
          · rw [if_neg hb]
            exact (vp_add st2 _ loc m rs).1
          · rw [if_neg hb]
            exact (vp_add st2 _ loc m rs).2
      constructor
      · rw [v2.1, v3.1, v1.1]
        exact (vp_generateUniqueId st).1
      · rw [v2.2, v3.2, v1.2]
        exact (vp_generateUniqueId st).2

theorem vp_setMasterRecoveryInfo (st st' : CSL) (id : ServerId) (info eid : Nat)
    (h : setMasterRecoveryInfo st id info eid = some st') :
    st'.version = st.version ∧ st'.published = st.published := by
  unfold setMasterRecoveryInfo addServerUpdateLogId at h
  cases h1 : updateEntryAt st id (fun e => { e with masterRecoveryInfo := info }) with
  | none => rw [h1] at h; cases h
  | some st1 =>
    rw [h1] at h
    dsimp only at h
    cases h2 : updateEntryAt st1 id (fun e => { e with serverUpdateLogId := eid }) with
    | none => rw [h2] at h; cases h
    | some st2 =>
      rw [h2] at h
      dsimp only at h
      have v1 := vp_updateEntryAt _ _ _ _ h1
      have v2 := vp_updateEntryAt _ _ _ _ h2
      have v3 := vp_updateEntryAt _ _ _ _ h
      constructor
      · rw [v3.1, v2.1, v1.1]
      · rw [v3.2, v2.2, v1.2]

/-- One public CSL operation (the mutators of §4.1; the `Nat` arguments
stand for the entry ids the external durable log assigns). -/
inductive CSLOp where
  | enlist (replacesId : ServerId) (services : ServiceMask) (readSpeed : Nat)
      (locator : String) (eid1 eid2 : Nat)
  | down (id : ServerId)
  | removeAfter (id : ServerId)
  | setMRI (id : ServerId) (info : Nat) (eid : Nat)

/-- Apply one public operation; an operation that throws
(`none`, which in every reachable case happens before any state
mutation) leaves the state unchanged. -/
def applyOp (st : CSL) : CSLOp → CSL
  | CSLOp.enlist rid m rs loc e1 e2 =>
    match enlistServer st rid m rs loc e1 e2 with
    | some (_, st') => st'
    | none => st
  | CSLOp.down id => (serverDown st id).getD st
  | CSLOp.removeAfter id => (removeAfterRecovery st id).getD st
  | CSLOp.setMRI id info eid => (setMasterRecoveryInfo st id info eid).getD st

/-- Run a sequence of public operations. -/
def runOps (st : CSL) : List CSLOp → CSL
  | [] => st
  | op :: ops => runOps (applyOp st op) ops

/-- The published version numbers are exactly `1, 2, …, version`:
strictly increasing, gap-free, one batch per version. -/
def versionsOK (st : CSL) : Prop :=
  st.published.map PBList.versionNumber = List.range' 1 st.published.length ∧
  st.version = st.published.length

theorem versionsOK_pushUpdate (st : CSL) (h : versionsOK st) :
    versionsOK (pushUpdate st) := by
  unfold pushUpdate
  split
  · exact h
  · constructor
    · show List.map _ (st.published ++ [_]) = _
      rw [List.map_append, h.1]
      simp only [List.map_cons, List.map_nil, List.length_append, List.length_cons,
        List.length_nil]
      rw [h.2, List.range'_1_concat]
      simp
      omega
    · show st.version + 1 = (st.published ++ [_]).length
      rw [h.2]
      simp

theorem versionsOK_of_vp (st st' : CSL) (h : versionsOK st)
    (hv : st'.version = st.version) (hp : st'.published = st.published) :
    versionsOK st' := by
  unfold versionsOK
  rw [hv, hp]
  exact h

theorem versionsOK_serverDown (st st' : CSL) (id : ServerId) (h : versionsOK st)
    (hs : serverDown st id = some st') : versionsOK st' := by
  unfold serverDown at hs
  cases hc : serverDownComplete st id with
  | none => rw [hc] at hs; cases hs
  | some st1 =>
    rw [hc] at hs
    injection hs with hs
    subst hs
    have v := vp_serverDownComplete st st1 id hc
    exact versionsOK_pushUpdate st1 (versionsOK_of_vp st st1 h v.1 v.2)

theorem versionsOK_applyOp (st : CSL) (op : CSLOp) (h : versionsOK st) :
    versionsOK (applyOp st op) := by
  cases op with
  | enlist rid m rs loc e1 e2 =>
    unfold applyOp
    dsimp only
    cases he : enlistServer st rid m rs loc e1 e2 with
    | none => exact h
    | some p =>
      obtain ⟨newId, st'⟩ := p
      unfold enlistServer at he
      cases hd : (if (getEntry st rid).isSome then serverDown st rid else some st) with
      | none => rw [hd] at he; cases he
      | some st1 =>
        rw [hd] at he
        dsimp only at he
        have h1 : versionsOK st1 := by
          by_cases hg : (getEntry st rid).isSome
          · rw [if_pos hg] at hd
            exact versionsOK_serverDown st st1 rid h hd
          · rw [if_neg hg] at hd
            injection hd with hd
            subst hd
            exact h
        cases hx : enlistServerExecute st1 m rs loc e1 e2 with
        | none => rw [hx] at he; cases he
        | some q =>
          obtain ⟨nid, st2⟩ := q
          rw [hx] at he
          dsimp only at he
          injection he with he
          injection he with he1 he2
          subst he2
          have v := vp_enlistServerExecute st1 st2 m rs loc e1 e2 nid hx
          exact versionsOK_pushUpdate st2 (versionsOK_of_vp st1 st2 h1 v.1 v.2)
  | down id =>
    unfold applyOp
    dsimp only
    cases hs : serverDown st id with
    | none => exact h
    | some st' => exact versionsOK_serverDown st st' id h hs
  | removeAfter id =>
    unfold applyOp removeAfterRecovery
    dsimp only
    cases hr : remove st id with
    | none => exact h
    | some st1 =>
      have v := vp_remove st st1 id hr
      exact versionsOK_pushUpdate st1 (versionsOK_of_vp st st1 h v.1 v.2)
  | setMRI id info eid =>
    unfold applyOp
    dsimp only
    cases hs : setMasterRecoveryInfo st id info eid with
    | none => exact h
    | some st' =>
      have v := vp_setMasterRecoveryInfo st st' id info eid hs
      exact versionsOK_of_vp st st' h v.1 v.2

theorem versionsOK_runOps (ops : List CSLOp) (st : CSL) (h : versionsOK st) :
    versionsOK (runOps st ops) := by
  induction ops generalizing st with
  | nil => exact h
  | cons op rest ih => exact ih (applyOp st op) (versionsOK_applyOp st op h)

/-- C1: `pushUpdate` increments `version` by exactly one and publishes
a batch stamped with the new version when the pending delta is
non-empty, and leaves the state (version, update buffer, delta)
untouched when the delta is empty; consequently, over any sequence of
public operations starting from a fresh CSL, the published version
numbers are exactly `1, 2, …, version` — strictly increasing with no
gaps. -/
theorem claim1_version_monotonic :
    (∀ st : CSL, st.update = [] → pushUpdate st = st) ∧
    (∀ st : CSL, st.update ≠ [] →
      pushUpdate st =
        { st with
          version := st.version + 1
          update := []
          published := st.published ++ [{ versionNumber := st.version + 1, type := PBListType.updateList, servers := st.update }] }) ∧
    (∀ ops : List CSLOp,
      (runOps initCSL ops).published.map PBList.versionNumber =
        List.range' 1 (runOps initCSL ops).published.length ∧
      (runOps initCSL ops).version = (runOps initCSL ops).published.length) := by
  refine ⟨?_, ?_, ?_⟩
  · intro st h
    unfold pushUpdate
    rw [if_pos h]
  · intro st h
    unfold pushUpdate
    rw [if_neg h]
  · intro ops
    exact versionsOK_runOps ops initCSL ⟨rfl, rfl⟩

/-- A pending one-row delta used to witness C1. -/
def stPending : CSL :=
  { initCSL with version := 5, update := [entMaster.serializePB] }

/-- Witness for C1 at concrete inputs: an empty-delta push is the
identity, a non-empty-delta push bumps the version and publishes the
stamped batch, and a concrete two-operation trace publishes versions
`[1, 2]`. -/
theorem claim1_witness :
    (pushUpdate initCSL = initCSL) ∧
    (stPending.update ≠ [] ∧
      pushUpdate stPending =
        { stPending with
          version := 6
          update := []
          published := [{ versionNumber := 6, type := PBListType.updateList, servers := [entMaster.serializePB] }] }) ∧
    ((runOps initCSL [CSLOp.enlist { index := 0, gen := 0 } { master := true, backup := false, membership := true } 0 "mock:host=a" 1 2, CSLOp.down { index := 1, gen := 0 }]).published.map PBList.versionNumber =
      List.range' 1 (runOps initCSL [CSLOp.enlist { index := 0, gen := 0 } { master := true, backup := false, membership := true } 0 "mock:host=a" 1 2, CSLOp.down { index := 1, gen := 0 }]).published.length) := by
  refine ⟨claim1_version_monotonic.1 initCSL rfl, ⟨by decide, ?_⟩, ?_⟩
  · have := claim1_version_monotonic.2.1 stPending (by decide)
    rw [this]
    rfl
  · exact (claim1_version_monotonic.2.2 _).1

/-! ### Claim C6: `removeReplicationGroup` -/

/-- Invariant I1 of the spec: an occupied slot holds an entry whose id
carries that slot's index.  All states reachable through the public
operations satisfy it; it is assumed where a proof needs to locate an
entry from its id. -/
def wfCSL (st : CSL) : Prop :=
  ∀ (i : Nat) (s : Slot) (e : Entry),
    st.serverList[i]? = some s → s.entry = some e → e.serverId.index = i

/-- How `removeReplicationGroup g` rewrites one slot: an UP backup
whose replication id equals `g` is reset to 0, everything else is
untouched. -/
def slotReset (g : Nat) (s : Slot) : Slot :=
  match s.entry with
  | none => s
  | some e =>
    if e.isBackup = true ∧ e.replicationId = g ∧ e.status = ServerStatus.up then
      { s with entry := some { e with replicationId := 0 } }
    else s

/-- How one `assignReplicationGroup(0, ids)` call rewrites one slot:
the UP entries whose id is among `ids` get replication id 0. -/
def assignApply (ids : List ServerId) (s : Slot) : Slot :=
  match s.entry with
  | none => s
  | some e =>
    if e.serverId ∈ ids ∧ e.status = ServerStatus.up then
      { s with entry := some { e with replicationId := 0 } }
    else s

/-- The two behaviours of `setReplicationId` on a present entry. -/
theorem setRep_cases (st : CSL) (id : ServerId) (rid : Nat) (e : Entry)
    (h : getEntry st id = some e) :
    (e.status ≠ ServerStatus.up → setReplicationId st id rid = some st) ∧
    (e.status = ServerStatus.up →
      setReplicationId st id rid =
        some { withEntry st id { e with replicationId := rid } with update := st.update ++ [Entry.serializePB { e with replicationId := rid }] }) := by
  constructor
  · intro hs
    simp [setReplicationId, h, hs]
  · intro hs
    simp [setReplicationId, h, hs, withEntry]

/-- `setReplicationId` preserves well-formedness (it never changes a
stored id). -/
theorem wf_withEntry (st : CSL) (id : ServerId) (e e' : Entry)
    (h : getEntry st id = some e) (hid : e'.serverId = e.serverId)
    (hw : wfCSL st) : wfCSL (withEntry st id e') := by
  intro i s x hs hx
  by_cases hi : i = id.index
  · subst hi
    have hsl : (withEntry st id e').serverList[id.index]? =
        (st.serverList[id.index]?).map (fun s0 => { s0 with entry := some e' }) :=
      modifySlot_getElem_self _ _ _
    rw [hsl] at hs
    rcases (getEntry_some_iff st id e).mp h with ⟨s0, hs0, he0, hsid⟩
    rw [hs0] at hs
    injection hs with hs
    rw [← hs] at hx
    dsimp only at hx
    injection hx with hx
    rw [← hx, hid, hsid]
  · have hsl : (withEntry st id e').serverList[i]? = st.serverList[i]? :=
      modifySlot_getElem_ne _ _ _ _ hi
    rw [hsl] at hs
    exact hw i s x hs hx

/-- `getEntry` after overwriting `id`'s entry with one carrying the
same id: `id` now resolves to the replacement, every other id resolves
as before. -/
theorem getEntry_withEntry (st : CSL) (id id' : ServerId) (e e' : Entry)
    (h : getEntry st id = some e) (hid : e'.serverId = e.serverId) :
    getEntry (withEntry st id e') id' = if id' = id then some e' else getEntry st id' := by
  rcases (getEntry_some_iff st id e).mp h with ⟨s0, hs0, he0, hsid⟩
  by_cases hii : id'.index = id.index
  · have hsl : (withEntry st id e').serverList[id'.index]? =
        (st.serverList[id'.index]?).map (fun s => { s with entry := some e' }) := by
      rw [hii]
      exact modifySlot_getElem_self _ _ _
    by_cases hij : id' = id
    · subst hij
      rw [if_pos rfl]
      unfold getEntry
      rw [hsl, hs0]
      simp only [Option.map_some']
      rw [if_pos (hid.trans hsid)]
    · rw [if_neg hij]
      unfold getEntry
      rw [hsl, hii, hs0]
      simp only [Option.map_some']
      rw [he0]
      dsimp only
      rw [if_neg (by rw [hid, hsid]; exact fun hc => hij hc.symm)]
      rw [if_neg (by rw [hsid]; exact fun hc => hij hc.symm)]
  · have hne : id' ≠ id := fun hcc => hii (by rw [hcc])
    have hsl : (withEntry st id e').serverList[id'.index]? = st.serverList[id'.index]? :=
      modifySlot_getElem_ne _ _ _ _ hii
    rw [if_neg hne]
    unfold getEntry
    rw [hsl]

theorem assignApply_nil (s : Slot) : assignApply [] s = s := by
  unfold assignApply
  cases s.entry with
  | none => rfl
  | some e => simp

/-- Adding to the id set a member not stored in this slot does not
change how the slot is rewritten. -/
theorem assignApply_cons_ne (id : ServerId) (rest : List ServerId) (s : Slot)
    (hno : ∀ x : Entry, s.entry = some x → x.serverId ≠ id) :
    assignApply (id :: rest) s = assignApply rest s := by
  unfold assignApply
  cases hx : s.entry with
  | none => rfl
  | some x =>
    dsimp only
    have hxid := hno x hx
    by_cases hc : x.serverId ∈ rest ∧ x.status = ServerStatus.up
    · rw [if_pos hc, if_pos ⟨List.mem_cons_of_mem _ hc.1, hc.2⟩]
    · rw [if_neg hc, if_neg ?_]
      intro hcc
      rcases hcc with ⟨hmm, hup⟩
      rcases List.mem_cons.mp hmm with h1 | h1
      · exact hxid h1
      · exact hc ⟨h1, hup⟩

/-- A slot whose entry is not UP is never rewritten. -/
theorem assignApply_of_not_up (ids : List ServerId) (s : Slot)
    (hno : ∀ x : Entry, s.entry = some x → x.status ≠ ServerStatus.up) :
    assignApply ids s = s := by
  unfold assignApply
  cases hx : s.entry with
  | none => rfl
  | some x =>
    dsimp only
    rw [if_neg (fun hcc => hno x hx hcc.2)]

/-- Effect of `assignReplicationGroup(0, ids)` when every member is
present: it reports `true`, each UP member's entry gets replication id
0 and nothing else in the list changes, the pending delta is only
extended, and every UP member has a reassignment row appended. -/
theorem assign_zero_pointwise (ids : List ServerId) (st : CSL)
    (hw : wfCSL st) (hpres : ∀ id ∈ ids, (getEntry st id).isSome) :
    (assignReplicationGroup st 0 ids).1 = true ∧
    (∀ (j : Nat), (assignReplicationGroup st 0 ids).2.serverList[j]? = (st.serverList[j]?).map (assignApply ids)) ∧
    (∃ ex, (assignReplicationGroup st 0 ids).2.update = st.update ++ ex) ∧
    (∀ id ∈ ids, ∀ e : Entry, getEntry st id = some e → e.status = ServerStatus.up →
      ∃ r ∈ (assignReplicationGroup st 0 ids).2.update, r.serverId = id ∧ r.replicationId = 0) := by
  induction ids generalizing st with
  | nil =>
    refine ⟨rfl, ?_, ⟨[], (List.append_nil _).symm⟩, ?_⟩
    · intro j
      show st.serverList[j]? = (st.serverList[j]?).map (assignApply [])
      cases hsj : st.serverList[j]? with
      | none => rfl
      | some s => simp [assignApply_nil]
    · intro id hmem
      simp at hmem
  | cons id rest ih =>
    have hid : (getEntry st id).isSome := hpres id (by simp)
    obtain ⟨e, he⟩ : ∃ e, getEntry st id = some e := by
      cases hg : getEntry st id with
      | none => rw [hg] at hid; cases hid
      | some x => exact ⟨x, rfl⟩
    have hcases := setRep_cases st id 0 e he
    rcases (getEntry_some_iff st id e).mp he with ⟨s0, hs0, he0, hsid⟩
    by_cases hup : e.status = ServerStatus.up
    · -- the head member is UP: its entry is reset and a row appended
      have hst1 : setReplicationId st id 0 =
          some { withEntry st id { e with replicationId := 0 } with update := st.update ++ [Entry.serializePB { e with replicationId := 0 }] } := hcases.2 hup
      have hunfold : assignReplicationGroup st 0 (id :: rest) =
          assignReplicationGroup { withEntry st id { e with replicationId := 0 } with update := st.update ++ [Entry.serializePB { e with replicationId := 0 }] } 0 rest := by
        show (match setReplicationId st id 0 with
          | none => (false, st)
          | some st1 => assignReplicationGroup st1 0 rest) = _
        rw [hst1]
      have hg1 : ∀ id' : ServerId, getEntry { withEntry st id { e with replicationId := 0 } with update := st.update ++ [Entry.serializePB { e with replicationId := 0 }] } id' = if id' = id then some { e with replicationId := 0 } else getEntry st id' :=
        fun id' => getEntry_withEntry st id id' e _ he rfl
      have hw1 : wfCSL { withEntry st id { e with replicationId := 0 } with update := st.update ++ [Entry.serializePB { e with replicationId := 0 }] } :=
        wf_withEntry st id e _ he rfl hw
      have hpres1 : ∀ id' ∈ rest, (getEntry { withEntry st id { e with replicationId := 0 } with update := st.update ++ [Entry.serializePB { e with replicationId := 0 }] } id').isSome := by
        intro id' hmem
        rw [hg1 id']
        by_cases hij : id' = id
        · rw [if_pos hij]; rfl
        · rw [if_neg hij]
          exact hpres id' (List.mem_cons_of_mem _ hmem)
      obtain ⟨iha, ihb, ⟨ex, ihc⟩, ihd⟩ := ih _ hw1 hpres1
      rw [hunfold]
      refine ⟨iha, ?_, ⟨[Entry.serializePB { e with replicationId := 0 }] ++ ex, by rw [ihc]; simp⟩, ?_⟩
      · intro j
        rw [ihb j]
        by_cases hj : j = id.index
        · subst hj
          have hsl : ({ withEntry st id { e with replicationId := 0 } with update := st.update ++ [Entry.serializePB { e with replicationId := 0 }] } : CSL).serverList[id.index]? =
              (st.serverList[id.index]?).map (fun s => { s with entry := some { e with replicationId := 0 } }) :=
            modifySlot_getElem_self _ _ _
          rw [hsl, hs0]
          simp only [Option.map_some']
          congr 1
          have hright : assignApply (id :: rest) s0 = { s0 with entry := some { e with replicationId := 0 } } := by
            unfold assignApply
            rw [he0]
            dsimp only
            rw [if_pos ⟨by rw [hsid]; exact List.mem_cons_self id rest, hup⟩]
          rw [hright]
          unfold assignApply
          dsimp only
          split
          · rfl
          · rfl
        · have hsl : ({ withEntry st id { e with replicationId := 0 } with update := st.update ++ [Entry.serializePB { e with replicationId := 0 }] } : CSL).serverList[j]? = st.serverList[j]? :=
            modifySlot_getElem_ne _ _ _ _ hj
          rw [hsl]
          cases hsj : st.serverList[j]? with
          | none => rfl
          | some s =>
            simp only [Option.map_some']
            congr 1
            refine (assignApply_cons_ne id rest s ?_).symm
            intro x hx hcc
            exact hj ((hw j s x hsj hx).symm.trans (by rw [hcc]))
      · intro id' hmem e' hge' hup'
        rcases List.mem_cons.mp hmem with hhd | htl
        · subst hhd
          refine ⟨Entry.serializePB { e with replicationId := 0 }, ?_, hsid, rfl⟩
          rw [ihc]
          refine List.mem_append_left _ ?_
          exact List.mem_append_right _ (by simp)
        · by_cases hij : id' = id
          · subst hij
            have hg1u := hg1 id'
            rw [if_pos rfl] at hg1u
            refine ihd id' htl { e with replicationId := 0 } hg1u hup
          · have hg1u := hg1 id'
            rw [if_neg hij] at hg1u
            exact ihd id' htl e' (hg1u.trans hge') hup'
    · -- the head member is not UP: setReplicationId is a no-op
      have hst1 : setReplicationId st id 0 = some st := hcases.1 hup
      have hunfold : assignReplicationGroup st 0 (id :: rest) = assignReplicationGroup st 0 rest := by
        show (match setReplicationId st id 0 with
          | none => (false, st)
          | some st1 => assignReplicationGroup st1 0 rest) = _
        rw [hst1]
      have hpres1 : ∀ id' ∈ rest, (getEntry st id').isSome :=
        fun id' hmem => hpres id' (List.mem_cons_of_mem _ hmem)
      obtain ⟨iha, ihb, ⟨ex, ihc⟩, ihd⟩ := ih st hw hpres1
      rw [hunfold]
      refine ⟨iha, ?_, ⟨ex, ihc⟩, ?_⟩
      · intro j
        rw [ihb j]
        cases hsj : st.serverList[j]? with
        | none => rfl
        | some s =>
          simp only [Option.map_some']
          congr 1
          by_cases hj : j = id.index
          · subst hj
            have hss : s = s0 := by
              rw [hs0] at hsj
              injection hsj with hss
              exact hss.symm
            rw [hss]
            rw [assignApply_of_not_up rest s0 ?h1, assignApply_of_not_up (id :: rest) s0 ?h2]
            case h1 =>
              intro x hx
              rw [he0] at hx
              injection hx with hx
              rw [← hx]
              exact hup
            case h2 =>
              intro x hx
              rw [he0] at hx
              injection hx with hx
              rw [← hx]
              exact hup
          · refine (assignApply_cons_ne id rest s ?_).symm
            intro x hx hcc
            exact hj ((hw j s x hsj hx).symm.trans (by rw [hcc]))
      · intro id' hmem e' hge' hup'
        rcases List.mem_cons.mp hmem with hhd | htl
        · subst hhd
          have hee : e' = e := by
            have h2 := he.symm.trans hge'
            injection h2 with h2
            exact h2.symm
          rw [hee] at hup'
          exact absurd hup' hup
        · exact ihd id' htl e' hge' hup'

/-- The ids accumulated in `group` by the scan of
`removeReplicationGroup` after examining slots `0..k-1` of the starting
state. -/
def collectGroup (st0 : CSL) (g : Nat) : Nat → List ServerId
  | 0 => []
  | k + 1 =>
    collectGroup st0 g k ++
      (match st0.serverList[k]? with
       | some s =>
         match s.entry with
         | some e => if e.isBackup && e.replicationId == g then [e.serverId] else []
         | none => []
       | none => [])

theorem collectGroup_mem (st0 : CSL) (g : Nat) (k : Nat) (id : ServerId) :
    id ∈ collectGroup st0 g k ↔
      ∃ j s e, j < k ∧ st0.serverList[j]? = some s ∧ s.entry = some e ∧
        (e.isBackup && e.replicationId == g) = true ∧ e.serverId = id := by
  induction k with
  | zero =>
    simp [collectGroup]
  | succ k ih =>
    unfold collectGroup
    rw [List.mem_append, ih]
    constructor
    · rintro (⟨j, s, e, hj, h1, h2, h3, h4⟩ | hmem)
      · exact ⟨j, s, e, Nat.lt_succ_of_lt hj, h1, h2, h3, h4⟩
      · cases hsk : st0.serverList[k]? with
        | none => simp [hsk] at hmem
        | some sk =>
          cases hse : sk.entry with
          | none => simp [hsk, hse] at hmem
          | some ek =>
            by_cases hb : (ek.isBackup && ek.replicationId == g) = true
            · rw [hsk] at hmem
              simp only [hse] at hmem
              rw [if_pos hb] at hmem
              rcases List.mem_singleton.mp hmem with h4
              exact ⟨k, sk, ek, Nat.lt_succ_self k, hsk, hse, hb, h4.symm⟩
            · simp [hsk, hse, hb] at hmem
    · rintro ⟨j, s, e, hj, h1, h2, h3, h4⟩
      rcases Nat.lt_succ_iff_lt_or_eq.mp hj with hlt | heq
      · exact Or.inl ⟨j, s, e, hlt, h1, h2, h3, h4⟩
      · subst heq
        right
        rw [h1]
        simp only [h2]
        rw [if_pos h3]
        exact List.mem_singleton.mpr h4.symm

/-- Setting an already-zero replication id changes nothing. -/
theorem entry_set_rid_self (e : Entry) (h : e.replicationId = 0) :
    ({ e with replicationId := 0 } : Entry) = e := by
  rw [← h]

/-- `slotReset` never changes a stored id. -/
theorem slotReset_entry (g : Nat) (s : Slot) :
    (slotReset g s).entry = s.entry.map (fun e => if e.isBackup = true ∧ e.replicationId = g ∧ e.status = ServerStatus.up then { e with replicationId := 0 } else e) := by
  unfold slotReset
  cases hx : s.entry with
  | none =>
    show s.entry = Option.map _ none
    rw [hx]
    rfl
  | some e =>
    dsimp only
    simp only [Option.map_some']
    split
    · rfl
    · exact hx

/-- A state that is the slot-wise reset image of a well-formed state is
well-formed. -/
theorem wf_of_description (st0 st : CSL) (g k : Nat) (hw0 : wfCSL st0)
    (hdesc : ∀ (j : Nat), st.serverList[j]? = (st0.serverList[j]?).map (fun s => if j < k then slotReset g s else s)) :
    wfCSL st := by
  intro i s e hs he
  rw [hdesc i] at hs
  cases h0 : st0.serverList[i]? with
  | none => rw [h0] at hs; cases hs
  | some s0 =>
    rw [h0] at hs
    simp only [Option.map_some'] at hs
    injection hs with hs
    by_cases hi : i < k
    · rw [if_pos hi] at hs
      rw [← hs] at he
      rw [slotReset_entry] at he
      cases h1 : s0.entry with
      | none => rw [h1] at he; cases he
      | some e0 =>
        rw [h1] at he
        simp only [Option.map_some'] at he
        injection he with he
        have hidx := hw0 i s0 e0 h0 h1
        rw [← he]
        split
        · exact hidx
        · exact hidx
    · rw [if_neg hi] at hs
      rw [← hs] at he
      exact hw0 i s0 e h0 he

/-- Slot-wise description of the state after the scan of
`removeReplicationGroup g` has processed slots `0..k-1`. -/
def resetDesc (st0 : CSL) (g k : Nat) (st : CSL) : Prop :=
  ∀ (j : Nat), st.serverList[j]? = (st0.serverList[j]?).map (fun s => if j < k then slotReset g s else s)

/-- Delta-row description: each UP backup of group `g` among the first
`k` slots already has a reassignment row in the pending delta. -/
def rowsDesc (st0 : CSL) (g k : Nat) (st : CSL) : Prop :=
  ∀ (j : Nat) (s : Slot) (e : Entry), j < k → st0.serverList[j]? = some s → s.entry = some e →
    (e.isBackup && e.replicationId == g) = true → e.status = ServerStatus.up →
    ∃ r ∈ st.update, r.serverId = e.serverId ∧ r.replicationId = 0

theorem slotReset_of_not_match (g : Nat) (s : Slot)
    (h : ∀ e : Entry, s.entry = some e → (e.isBackup && e.replicationId == g) = false) :
    slotReset g s = s := by
  unfold slotReset
  cases hx : s.entry with
  | none => rfl
  | some e =>
    dsimp only
    rw [if_neg ?_]
    rintro ⟨ha, hb, hc⟩
    have := h e hx
    rw [ha, hb] at this
    simp at this

theorem assignApply_self (ids : List ServerId) (s : Slot)
    (h : ∀ x : Entry, s.entry = some x → x.serverId ∈ ids → x.status = ServerStatus.up → x.replicationId = 0) :
    assignApply ids s = s := by
  unfold assignApply
  cases hx : s.entry with
  | none => rfl
  | some x =>
    dsimp only
    by_cases hc : x.serverId ∈ ids ∧ x.status = ServerStatus.up
    · rw [if_pos hc, entry_set_rid_self x (h x hx hc.1 hc.2), ← hx]
    · rw [if_neg hc]

theorem assignApply_of_no_member (ids : List ServerId) (s : Slot)
    (h : ∀ x : Entry, s.entry = some x → x.serverId ∉ ids) :
    assignApply ids s = s := by
  unfold assignApply
  cases hx : s.entry with
  | none => rfl
  | some x =>
    dsimp only
    rw [if_neg (fun hc => h x hx hc.1)]

/-- Where an entry of the base state is found in a reset-description
state: same slot, same id and status, with the replication id zeroed
iff the entry was an already-processed matching UP backup. -/
theorem getEntry_of_description (st0 st : CSL) (g k : Nat) (hw0 : wfCSL st0)
    (hdesc : resetDesc st0 g k st) (j : Nat) (s : Slot) (e : Entry)
    (h1 : st0.serverList[j]? = some s) (h2 : s.entry = some e) :
    getEntry st e.serverId =
      some (if j < k ∧ e.isBackup = true ∧ e.replicationId = g ∧ e.status = ServerStatus.up then { e with replicationId := 0 } else e) := by
  have hidx := hw0 j s e h1 h2
  apply (getEntry_some_iff st e.serverId _).mpr
  refine ⟨if j < k then slotReset g s else s, ?_, ?_, ?_⟩
  · rw [hidx, hdesc j, h1]
    rfl
  · by_cases hj : j < k
    · rw [if_pos hj, slotReset_entry, h2]
      simp only [Option.map_some']
      by_cases hc : e.isBackup = true ∧ e.replicationId = g ∧ e.status = ServerStatus.up
      · rw [if_pos hc, if_pos ⟨hj, hc⟩]
      · rw [if_neg hc, if_neg (fun hcc => hc hcc.2)]
    · rw [if_neg hj, h2, if_neg (fun hcc => hj hcc.1)]
  · split
    · rfl
    · rfl

/-- One pass of the body of the scan in `removeReplicationGroup`: after
the (possibly repeated) in-loop `assignReplicationGroup(0, group)` call
with the group collected from slots `0..k`, the state is described by
the reset map up to `k+1`, the delta has only grown, and every matching
UP backup among the first `k+1` slots has its reassignment row. -/
theorem rrgStep (st0 : CSL) (g : Nat) (hw0 : wfCSL st0) (k : Nat) (st : CSL)
    (hdesc : resetDesc st0 g k st)
    (hrows : rowsDesc st0 g k st)
    (hext : ∃ ex, st.update = st0.update ++ ex) :
    resetDesc st0 g (k + 1) (if collectGroup st0 g (k + 1) = [] then st else (assignReplicationGroup st 0 (collectGroup st0 g (k + 1))).2) ∧
    rowsDesc st0 g (k + 1) (if collectGroup st0 g (k + 1) = [] then st else (assignReplicationGroup st 0 (collectGroup st0 g (k + 1))).2) ∧
    (∃ ex, (if collectGroup st0 g (k + 1) = [] then st else (assignReplicationGroup st 0 (collectGroup st0 g (k + 1))).2).update = st0.update ++ ex) := by
  by_cases hgrp : collectGroup st0 g (k + 1) = []
  · rw [if_pos hgrp]
    have hnomatch : ∀ (j : Nat) (s : Slot) (e : Entry), j < k + 1 → st0.serverList[j]? = some s →
        s.entry = some e → (e.isBackup && e.replicationId == g) = false := by
      intro j s e hj h1 h2
      by_contra hb
      have hbt : (e.isBackup && e.replicationId == g) = true := by
        cases hv : (e.isBackup && e.replicationId == g) with
        | true => rfl
        | false => exact absurd hv hb
      have : e.serverId ∈ collectGroup st0 g (k + 1) :=
        (collectGroup_mem st0 g (k + 1) e.serverId).mpr ⟨j, s, e, hj, h1, h2, hbt, rfl⟩
      rw [hgrp] at this
      simp at this
    refine ⟨?_, ?_, hext⟩
    · intro j
      rw [hdesc j]
      cases h0 : st0.serverList[j]? with
      | none => rfl
      | some s =>
        simp only [Option.map_some']
        congr 1
        by_cases hj : j < k
        · rw [if_pos hj, if_pos (Nat.lt_succ_of_lt hj)]
        · rw [if_neg hj]
          by_cases hj1 : j < k + 1
          · rw [if_pos hj1]
            exact (slotReset_of_not_match g s (fun e he => hnomatch j s e hj1 h0 he)).symm
          · rw [if_neg hj1]
    · intro j s e hj h1 h2 hm hup
      have := hnomatch j s e hj h1 h2
      rw [hm] at this
      cases this
  · rw [if_neg hgrp]
    have hwst : wfCSL st := wf_of_description st0 st g k hw0 hdesc
    have hpres : ∀ id ∈ collectGroup st0 g (k + 1), (getEntry st id).isSome := by
      intro id hmem
      rcases (collectGroup_mem st0 g (k + 1) id).mp hmem with ⟨j, s, e, hj, h1, h2, hm, hid⟩
      rw [← hid]
      rw [getEntry_of_description st0 st g k hw0 hdesc j s e h1 h2]
      rfl
    obtain ⟨hb, hpt, ⟨ex2, hex2⟩, hrows2⟩ := assign_zero_pointwise (collectGroup st0 g (k + 1)) st hwst hpres
    refine ⟨?_, ?_, ?_⟩
    · intro j
      rw [hpt j, hdesc j]
      cases h0 : st0.serverList[j]? with
      | none => rfl
      | some s =>
        simp only [Option.map_some', Option.map_map]
        congr 1
        show assignApply (collectGroup st0 g (k + 1)) (if j < k then slotReset g s else s) = _
        by_cases hj : j < k
        · -- already-reset slot: re-assignment is the identity
          rw [if_pos hj, if_pos (Nat.lt_succ_of_lt hj)]
          apply assignApply_self
          intro x hx hxm hxup
          rw [slotReset_entry] at hx
          cases h2 : s.entry with
          | none => rw [h2] at hx; cases hx
          | some e =>
            rw [h2] at hx
            simp only [Option.map_some'] at hx
            injection hx with hx
            -- x is the (possibly reset) image of e; membership forces e to match
            rcases (collectGroup_mem st0 g (k + 1) x.serverId).mp hxm with ⟨j2, s2, e2, hj2, h12, h22, hm2, hid2⟩
            have hxid : x.serverId = e.serverId := by
              rw [← hx]
              split
              · rfl
              · rfl
            have hjj : j2 = j := by
              have a1 := hw0 j2 s2 e2 h12 h22
              have a2 := hw0 j s e h0 h2
              rw [hid2, hxid, a2] at a1
              exact a1.symm
            subst hjj
            rw [h0] at h12
            injection h12 with h12
            subst h12
            rw [h2] at h22
            injection h22 with h22
            subst h22
            -- e matches g; its image under slotReset has replication id 0
            have hup2 : e.status = ServerStatus.up := by
              rw [← hx] at hxup
              by_cases hc : e.isBackup = true ∧ e.replicationId = g ∧ e.status = ServerStatus.up
              · exact hc.2.2
              · rw [if_neg hc] at hxup
                exact hxup
            have hcond : e.isBackup = true ∧ e.replicationId = g ∧ e.status = ServerStatus.up := by
              have hpair : e.isBackup = true ∧ (e.replicationId == g) = true := by simpa using hm2
              exact ⟨hpair.1, (by simpa using hpair.2), hup2⟩
            rw [← hx, if_pos hcond]
        · rw [if_neg hj]
          by_cases hj1 : j < k + 1
          · -- the freshly examined slot
            have hjk : j = k := by omega
            subst hjk
            rw [if_pos hj1]
            unfold assignApply slotReset
            cases h2 : s.entry with
            | none => rfl
            | some e =>
              dsimp only
              by_cases hc : e.isBackup = true ∧ e.replicationId = g ∧ e.status = ServerStatus.up
              · rw [if_pos hc, if_pos ?_]
                refine ⟨?_, hc.2.2⟩
                refine (collectGroup_mem st0 g (j + 1) e.serverId).mpr ⟨j, s, e, Nat.lt_succ_self j, h0, h2, ?_, rfl⟩
                rw [hc.1]
                simp [hc.2.1]
              · rw [if_neg hc, if_neg ?_]
                rintro ⟨hmem, hup⟩
                rcases (collectGroup_mem st0 g (j + 1) e.serverId).mp hmem with ⟨j2, s2, e2, hj2, h12, h22, hm2, hid2⟩
                have hjj : j2 = j := by
                  have a1 := hw0 j2 s2 e2 h12 h22
                  have a2 := hw0 j s e h0 h2
                  rw [hid2, a2] at a1
                  exact a1.symm
                subst hjj
                rw [h0] at h12
                injection h12 with h12
                subst h12
                rw [h2] at h22
                injection h22 with h22
                subst h22
                have hpair : e.isBackup = true ∧ (e.replicationId == g) = true := by simpa using hm2
                exact hc ⟨hpair.1, (by simpa using hpair.2), hup⟩
          · rw [if_neg hj1]
            apply assignApply_of_no_member
            intro x hx hxm
            rcases (collectGroup_mem st0 g (k + 1) x.serverId).mp hxm with ⟨j2, s2, e2, hj2, h12, h22, hm2, hid2⟩
            have a1 := hw0 j2 s2 e2 h12 h22
            have a2 := hw0 j s x h0 hx
            rw [hid2, a2] at a1
            omega
    · intro j s e hj h1 h2 hm hup
      by_cases hjk : j < k
      · rcases hrows j s e hjk h1 h2 hm hup with ⟨r, hr, hra, hrb⟩
        exact ⟨r, by rw [hex2]; exact List.mem_append_left _ hr, hra, hrb⟩
      · have hjk1 : j = k := by omega
        subst hjk1
        have hmem : e.serverId ∈ collectGroup st0 g (j + 1) :=
          (collectGroup_mem st0 g (j + 1) e.serverId).mpr ⟨j, s, e, Nat.lt_succ_self j, h1, h2, hm, rfl⟩
        have hge : getEntry st e.serverId = some e := by
          rw [getEntry_of_description st0 st g j hw0 hdesc j s e h1 h2]
          rw [if_neg (fun hcc => hjk hcc.1)]
        exact hrows2 e.serverId hmem e hge hup
    · rcases hext with ⟨ex, hex⟩
      exact ⟨ex ++ ex2, by rw [hex2, hex, List.append_assoc]⟩

theorem collectGroup_succ (st0 : CSL) (g k : Nat) :
    collectGroup st0 g (k + 1) =
      collectGroup st0 g k ++
        (match st0.serverList[k]? with
         | some s =>
           match s.entry with
           | some e => if e.isBackup && e.replicationId == g then [e.serverId] else []
           | none => []
         | none => []) := rfl

theorem rrgLoop_cons (gid : Nat) (st : CSL) (group : List ServerId) (i : Nat) (rest : List Nat) :
    rrgLoop gid st group (i :: rest) =
      rrgLoop gid
        (if (match (st.serverList.getD i Slot.empty).entry with
             | some e => if e.isBackup && e.replicationId == gid then group ++ [e.serverId] else group
             | none => group) = [] then st
         else (assignReplicationGroup st 0
            (match (st.serverList.getD i Slot.empty).entry with
             | some e => if e.isBackup && e.replicationId == gid then group ++ [e.serverId] else group
             | none => group)).2)
        (match (st.serverList.getD i Slot.empty).entry with
         | some e => if e.isBackup && e.replicationId == gid then group ++ [e.serverId] else group
         | none => group) rest := rfl

/-- Full effect of the scan of `removeReplicationGroup` over slots
`k..k+m-1`, by induction on the number of remaining slots. -/
theorem rrgLoop_spec (st0 : CSL) (g : Nat) (hw0 : wfCSL st0) :
    ∀ (m k : Nat) (st : CSL),
      resetDesc st0 g k st →
      rowsDesc st0 g k st →
      (∃ ex, st.update = st0.update ++ ex) →
      resetDesc st0 g (k + m) (rrgLoop g st (collectGroup st0 g k) (List.range' k m)) ∧
      rowsDesc st0 g (k + m) (rrgLoop g st (collectGroup st0 g k) (List.range' k m)) ∧
      (∃ ex, (rrgLoop g st (collectGroup st0 g k) (List.range' k m)).update = st0.update ++ ex) := by
  intro m
  induction m with
  | zero =>
    intro k st hdesc hrows hext
    exact ⟨hdesc, hrows, hext⟩
  | succ m ih =>
    intro k st hdesc hrows hext
    have hgroup : (match (st.serverList.getD k Slot.empty).entry with
        | some e => if e.isBackup && e.replicationId == g then collectGroup st0 g k ++ [e.serverId] else collectGroup st0 g k
        | none => collectGroup st0 g k) = collectGroup st0 g (k + 1) := by
      have hgd : st.serverList.getD k Slot.empty = (st.serverList[k]?).getD Slot.empty :=
        List.getD_eq_getElem?_getD _ _ _
      rw [hgd, hdesc k, collectGroup_succ]
      cases h0 : st0.serverList[k]? with
      | none =>
        show collectGroup st0 g k = collectGroup st0 g k ++ _
        simp
      | some s =>
        simp only [Option.map_some', Option.getD_some]
        rw [if_neg (Nat.lt_irrefl k)]
        cases h2 : s.entry with
        | none =>
          show collectGroup st0 g k = collectGroup st0 g k ++ _
          simp
        | some e =>
          dsimp only
          by_cases hbb : (e.isBackup && e.replicationId == g) = true
          · rw [if_pos hbb, if_pos hbb]
          · rw [if_neg hbb, if_neg hbb]
            simp
    have hrange : List.range' k (m + 1) = k :: List.range' (k + 1) m := rfl
    rw [hrange, rrgLoop_cons, hgroup]
    obtain ⟨hd1, hr1, he1⟩ := rrgStep st0 g hw0 k st hdesc hrows hext
    have := ih (k + 1) _ hd1 hr1 he1
    rw [show k + (m + 1) = (k + 1) + m from by omega]
    exact this

theorem frame_setReplicationId (st st' : CSL) (id : ServerId) (rid : Nat)
    (h : setReplicationId st id rid = some st') :
    st'.numberOfMasters = st.numberOfMasters ∧ st'.numberOfBackups = st.numberOfBackups ∧
    st'.events = st.events ∧ st'.recoveries = st.recoveries ∧
    st'.nextReplicationId = st.nextReplicationId := by
  unfold setReplicationId at h
  split at h
  · cases h
  · split at h
    · injection h with h
      subst h
      exact ⟨rfl, rfl, rfl, rfl, rfl⟩
    · injection h with h
      subst h
      exact ⟨rfl, rfl, rfl, rfl, rfl⟩

theorem frame_assignReplicationGroup (ids : List ServerId) (st : CSL) (rid : Nat) :
    (assignReplicationGroup st rid ids).2.numberOfMasters = st.numberOfMasters ∧
    (assignReplicationGroup st rid ids).2.numberOfBackups = st.numberOfBackups ∧
    (assignReplicationGroup st rid ids).2.events = st.events ∧
    (assignReplicationGroup st rid ids).2.recoveries = st.recoveries ∧
    (assignReplicationGroup st rid ids).2.nextReplicationId = st.nextReplicationId := by
  induction ids generalizing st with
  | nil => exact ⟨rfl, rfl, rfl, rfl, rfl⟩
  | cons bid rest ih =>
    unfold assignReplicationGroup
    cases hs : setReplicationId st bid rid with
    | none => exact ⟨rfl, rfl, rfl, rfl, rfl⟩
    | some st1 =>
      have h1 := frame_setReplicationId st st1 bid rid hs
      have h2 := ih st1
      rw [h1.1, h1.2.1, h1.2.2.1, h1.2.2.2.1, h1.2.2.2.2] at h2
      exact h2

theorem frame_rrgLoop (is : List Nat) (gid : Nat) (st : CSL) (group : List ServerId) :
    (rrgLoop gid st group is).numberOfMasters = st.numberOfMasters ∧
    (rrgLoop gid st group is).numberOfBackups = st.numberOfBackups ∧
    (rrgLoop gid st group is).events = st.events ∧
    (rrgLoop gid st group is).recoveries = st.recoveries ∧
    (rrgLoop gid st group is).nextReplicationId = st.nextReplicationId := by
  induction is generalizing st group with
  | nil => exact ⟨rfl, rfl, rfl, rfl, rfl⟩
  | cons i rest ih =>
    unfold rrgLoop
    dsimp only
    split
    · exact ih st _
    · refine ⟨?_, ?_, ?_, ?_, ?_⟩
      · rw [(ih _ _).1]
        exact (frame_assignReplicationGroup _ st 0).1
      · rw [(ih _ _).2.1]
        exact (frame_assignReplicationGroup _ st 0).2.1
      · rw [(ih _ _).2.2.1]
        exact (frame_assignReplicationGroup _ st 0).2.2.1
      · rw [(ih _ _).2.2.2.1]
        exact (frame_assignReplicationGroup _ st 0).2.2.2.1
      · rw [(ih _ _).2.2.2.2]
        exact (frame_assignReplicationGroup _ st 0).2.2.2.2

/-- A decidable check implying the well-formedness invariant I1: every
stored entry's `id.index` equals its slot index. -/
def wfCheck (st : CSL) : Bool :=
  (List.range st.serverList.length).all (fun i =>
    match (st.serverList.getD i Slot.empty).entry with
    | some e => e.serverId.index == i
    | none => true)

theorem wfCSL_of_check (st : CSL) (h : wfCheck st = true) : wfCSL st := by
  intro i s e h1 h2
  have hi : i < st.serverList.length := by
    cases Nat.lt_or_ge i st.serverList.length with
    | inl h => exact h
    | inr h => rw [List.getElem?_eq_none h] at h1; cases h1
  have ha := List.all_eq_true.mp h i (List.mem_range.mpr hi)
  have hgd : st.serverList.getD i Slot.empty = s := by
    rw [List.getD_eq_getElem?_getD, h1]
    rfl
  rw [hgd, h2] at ha
  simpa using ha

/-- C6: for a well-formed list and `groupId ≠ 0`,
`removeReplicationGroup groupId` rewrites every slot by `slotReset`
(an UP backup whose replication id equals `groupId` is reset to 0,
every other entry is untouched), each such change appends a
reassignment row for that server to the pending delta (the delta only
grows), and the version, the publication history, the master/backup
counters, the tracker events, the recovery calls and
`nextReplicationId` are unchanged; `removeReplicationGroup 0` is the
identity. -/
theorem claim6_remove_replication_group (st : CSL) (g : Nat) (hw : wfCSL st) (hg : g ≠ 0) :
    (∀ (j : Nat), (removeReplicationGroup st g).serverList[j]? =
        (st.serverList[j]?).map (slotReset g)) ∧
    (∀ (j : Nat) (s : Slot) (e : Entry), st.serverList[j]? = some s → s.entry = some e →
        (e.isBackup && e.replicationId == g) = true → e.status = ServerStatus.up →
        ∃ r ∈ (removeReplicationGroup st g).update, r.serverId = e.serverId ∧ r.replicationId = 0) ∧
    (∃ ex, (removeReplicationGroup st g).update = st.update ++ ex) ∧
    (removeReplicationGroup st g).version = st.version ∧
    (removeReplicationGroup st g).published = st.published ∧
    (removeReplicationGroup st g).numberOfMasters = st.numberOfMasters ∧
    (removeReplicationGroup st g).numberOfBackups = st.numberOfBackups ∧
    (removeReplicationGroup st g).events = st.events ∧
    (removeReplicationGroup st g).recoveries = st.recoveries ∧
    (removeReplicationGroup st g).nextReplicationId = st.nextReplicationId ∧
    removeReplicationGroup st 0 = st := by
  have hvp := vp_removeReplicationGroup st g
  have hfr : (removeReplicationGroup st g).numberOfMasters = st.numberOfMasters ∧
      (removeReplicationGroup st g).numberOfBackups = st.numberOfBackups ∧
      (removeReplicationGroup st g).events = st.events ∧
      (removeReplicationGroup st g).recoveries = st.recoveries ∧
      (removeReplicationGroup st g).nextReplicationId = st.nextReplicationId := by
    unfold removeReplicationGroup
    rw [if_neg hg]
    exact frame_rrgLoop _ g st []
  have hd0 : resetDesc st g 0 st := by
    intro j
    simp only [Nat.not_lt_zero, if_false]
    cases st.serverList[j]? <;> rfl
  have hr0 : rowsDesc st g 0 st := by
    intro j s e hj
    exact absurd hj (Nat.not_lt_zero j)
  have he0 : ∃ ex, st.update = st.update ++ ex := ⟨[], by simp⟩
  obtain ⟨hd, hr, he⟩ :=
    rrgLoop_spec st g hw st.serverList.length 0 st hd0 hr0 he0
  have hrun : removeReplicationGroup st g =
      rrgLoop g st (collectGroup st g 0) (List.range' 0 st.serverList.length) := by
    unfold removeReplicationGroup
    rw [if_neg hg, List.range_eq_range']
    rfl
  refine ⟨?_, ?_, ?_, hvp.1, hvp.2, hfr.1, hfr.2.1, hfr.2.2.1, hfr.2.2.2.1, hfr.2.2.2.2, rfl⟩
  · intro j
    rw [hrun]
    have := hd j
    rw [Nat.zero_add] at this
    rw [this]
    by_cases hj : j < st.serverList.length
    · cases h0 : st.serverList[j]? with
      | none => rfl
      | some s =>
        simp only [Option.map_some']
        rw [if_pos hj]
    · rw [List.getElem?_eq_none (Nat.le_of_not_lt hj)]
      rfl
  · intro j s e h1 h2 h3 h4
    have hj : j < st.serverList.length := by
      cases Nat.lt_or_ge j st.serverList.length with
      | inl h => exact h
      | inr h => rw [List.getElem?_eq_none h] at h1; cases h1
    rw [hrun]
    exact hr j s e (by omega) h1 h2 h3 h4
  · rw [hrun]
    exact he

/-- Two UP backups in replication group 1, witnessing C6. -/
def stGroup : CSL :=
  { initCSL with
    serverList :=
      [{ entry := some { mkUpBackup 0 with replicationId := 1 }, nextGenerationNumber := 1 },
       { entry := some { mkUpBackup 1 with replicationId := 1 }, nextGenerationNumber := 1 }]
    numberOfBackups := 2 }

/-- Witness for C6 at a concrete state: removing group 1 from two UP
backups in that group resets both replication ids through the delta
path. -/
theorem claim6_witness :
    wfCSL stGroup ∧ (1 : Nat) ≠ 0 ∧
    ((∀ (j : Nat), (removeReplicationGroup stGroup 1).serverList[j]? =
        (stGroup.serverList[j]?).map (slotReset 1)) ∧
     (∀ (j : Nat) (s : Slot) (e : Entry), stGroup.serverList[j]? = some s → s.entry = some e →
        (e.isBackup && e.replicationId == 1) = true → e.status = ServerStatus.up →
        ∃ r ∈ (removeReplicationGroup stGroup 1).update, r.serverId = e.serverId ∧ r.replicationId = 0) ∧
     (∃ ex, (removeReplicationGroup stGroup 1).update = stGroup.update ++ ex) ∧
     (removeReplicationGroup stGroup 1).version = stGroup.version ∧
     (removeReplicationGroup stGroup 1).published = stGroup.published ∧
     (removeReplicationGroup stGroup 1).numberOfMasters = stGroup.numberOfMasters ∧
     (removeReplicationGroup stGroup 1).numberOfBackups = stGroup.numberOfBackups ∧
     (removeReplicationGroup stGroup 1).events = stGroup.events ∧
     (removeReplicationGroup stGroup 1).recoveries = stGroup.recoveries ∧
     (removeReplicationGroup stGroup 1).nextReplicationId = stGroup.nextReplicationId ∧
     removeReplicationGroup stGroup 0 = stGroup) := by
  have hwf : wfCSL stGroup := wfCSL_of_check stGroup (by decide)
  exact ⟨hwf, by decide, claim6_remove_replication_group stGroup 1 hwf (by decide)⟩

/-! ### Claim C2: the removal is published before the replacing addition -/

/-- The pending delta only grows across `setReplicationId`. -/
theorem ext_setReplicationId (st st' : CSL) (id : ServerId) (rid : Nat)
    (h : setReplicationId st id rid = some st') :
    ∃ ex, st'.update = st.update ++ ex := by
  unfold setReplicationId at h
  split at h
  · cases h
  · split at h
    · injection h with h
      subst h
      exact ⟨[], by simp⟩
    · injection h with h
      subst h
      exact ⟨_, rfl⟩

theorem ext_assignReplicationGroup (ids : List ServerId) (st : CSL) (rid : Nat) :
    ∃ ex, (assignReplicationGroup st rid ids).2.update = st.update ++ ex := by
  induction ids generalizing st with
  | nil => exact ⟨[], (List.append_nil st.update).symm⟩
  | cons bid rest ih =>
    unfold assignReplicationGroup
    cases hs : setReplicationId st bid rid with
    | none => exact ⟨[], (List.append_nil st.update).symm⟩
    | some st1 =>
      obtain ⟨ex1, h1⟩ := ext_setReplicationId st st1 bid rid hs
      obtain ⟨ex2, h2⟩ := ih st1
      exact ⟨ex1 ++ ex2, by rw [h2, h1, List.append_assoc]⟩

theorem ext_crgLoop (fuel : Nat) (st : CSL) (free : List ServerId) :
    ∃ ex, (crgLoop st free fuel).update = st.update ++ ex := by
  induction fuel generalizing st free with
  | zero => exact ⟨[], (List.append_nil st.update).symm⟩
  | succ n ih =>
    unfold crgLoop
    split
    · obtain ⟨ex1, h1⟩ := ext_assignReplicationGroup ((free.drop (free.length - 3)).reverse) st st.nextReplicationId
      obtain ⟨ex2, h2⟩ := ih { (assignReplicationGroup st st.nextReplicationId ((free.drop (free.length - 3)).reverse)).2 with nextReplicationId := (assignReplicationGroup st st.nextReplicationId ((free.drop (free.length - 3)).reverse)).2.nextReplicationId + 1 } (free.take (free.length - 3))
      refine ⟨ex1 ++ ex2, ?_⟩
      rw [h2]
      show (assignReplicationGroup st st.nextReplicationId ((free.drop (free.length - 3)).reverse)).2.update ++ ex2 = _
      rw [h1, List.append_assoc]
    · exact ⟨[], (List.append_nil st.update).symm⟩

theorem ext_createReplicationGroup (st : CSL) :
    ∃ ex, (createReplicationGroup st).update = st.update ++ ex :=
  ext_crgLoop _ st _

theorem ext_rrgLoop (is : List Nat) (gid : Nat) (st : CSL) (group : List ServerId) :
    ∃ ex, (rrgLoop gid st group is).update = st.update ++ ex := by
  induction is generalizing st group with
  | nil => exact ⟨[], (List.append_nil st.update).symm⟩
  | cons i rest ih =>
    rw [rrgLoop_cons]
    generalize (match (st.serverList.getD i Slot.empty).entry with
      | some e => if e.isBackup && e.replicationId == gid then group ++ [e.serverId] else group
      | none => group) = grp
    by_cases hg : grp = []
    · rw [if_pos hg]
      exact ih st grp
    · rw [if_neg hg]
      obtain ⟨ex1, h1⟩ := ext_assignReplicationGroup grp st 0
      obtain ⟨ex2, h2⟩ := ih (assignReplicationGroup st 0 grp).2 grp
      exact ⟨ex1 ++ ex2, by rw [h2, h1, List.append_assoc]⟩

theorem ext_removeReplicationGroup (st : CSL) (gid : Nat) :
    ∃ ex, (removeReplicationGroup st gid).update = st.update ++ ex := by
  unfold removeReplicationGroup
  split
  · exact ⟨[], (List.append_nil st.update).symm⟩
  · exact ext_rrgLoop _ gid st []

/-- `updateEntryAt` never touches the pending delta. -/
theorem upd_updateEntryAt (st st' : CSL) (id : ServerId) (f : Entry → Entry)
    (h : updateEntryAt st id f = some st') : st'.update = st.update := by
  unfold updateEntryAt at h
  split at h
  · cases h
  · injection h with h
    subst h
    rfl

/-- Full effect of `crashed` on an UP entry: the CRASHED row is appended
to the pending delta, version and publications are untouched, and the
slot now holds the CRASHED copy of the entry. -/
theorem crashed_up (st : CSL) (id : ServerId) (e : Entry)
    (h0 : getEntry st id = some e) (hup : e.status = ServerStatus.up) :
    ∃ st1, crashed st id = some st1 ∧
      st1.update = st.update ++ [Entry.serializePB { e with status := ServerStatus.crashed }] ∧
      st1.published = st.published ∧ st1.version = st.version ∧
      getEntry st1 id = some { e with status := ServerStatus.crashed } ∧
      st1.recoveries = st.recoveries := by
  have hne : ¬ e.status = ServerStatus.crashed := by
    rw [hup]
    intro hcc
    cases hcc
  obtain ⟨s0, hs0, hse0, hsid0⟩ := (getEntry_some_iff st id e).mp h0
  unfold crashed
  rw [h0]
  dsimp only
  rw [if_neg hne]
  refine ⟨_, rfl, ?_, ?_, ?_, ?_, ?_⟩
  · by_cases h1 : e.isMaster = true <;> by_cases h2 : e.isBackup = true <;> simp [h1, h2]
  · by_cases h1 : e.isMaster = true <;> by_cases h2 : e.isBackup = true <;> simp [h1, h2]
  · by_cases h1 : e.isMaster = true <;> by_cases h2 : e.isBackup = true <;> simp [h1, h2]
  · apply (getEntry_some_iff _ id _).mpr
    refine ⟨{ s0 with entry := some { e with status := ServerStatus.crashed } }, ?_, rfl, hsid0⟩
    by_cases h1 : e.isMaster = true <;> by_cases h2 : e.isBackup = true <;>
      simp [h1, h2, modifySlot_getElem_self, hs0]
  · by_cases h1 : e.isMaster = true <;> by_cases h2 : e.isBackup = true <;> simp [h1, h2]

/-- Full effect of `remove` on an entry that is already CRASHED (the
state left by the `crashed` call inside `ServerDown::complete`): the
transient DOWN row is appended, version and publications untouched. -/
theorem remove_crashed (st : CSL) (id : ServerId) (e : Entry)
    (h0 : getEntry st id = some e) (hcr : e.status = ServerStatus.crashed) :
    ∃ st1, remove st id = some st1 ∧
      st1.update = st.update ++ [Entry.serializePB { e with status := ServerStatus.down }] ∧
      st1.published = st.published ∧ st1.version = st.version := by
  have hno : crashed st id = some st := by
    unfold crashed
    rw [h0]
    dsimp only
    rw [if_pos hcr]
  unfold remove
  rw [h0]
  dsimp only
  rw [hno]
  dsimp only
  rw [h0]
  dsimp only
  exact ⟨_, rfl, rfl, rfl, rfl⟩

/-- Full effect of `ServerDown::complete` on an UP entry: the CRASHED
row — and, when the server offers no MASTER service, the DOWN row —
lands in the pending delta (possibly followed by replication-group
reassignment rows), while version and publications are untouched. -/
theorem serverDownComplete_up (st : CSL) (id : ServerId) (e : Entry)
    (h0 : getEntry st id = some e) (hup : e.status = ServerStatus.up) :
    ∃ st1 ex, serverDownComplete st id = some st1 ∧
      st1.update = st.update ++ [Entry.serializePB { e with status := ServerStatus.crashed }] ++
        (if e.services.master = true then [] else [Entry.serializePB { e with status := ServerStatus.down }]) ++ ex ∧
      st1.published = st.published ∧ st1.version = st.version := by
  obtain ⟨stc, hc, hcu, hcp, hcv, hge, -⟩ := crashed_up st id e h0 hup
  unfold serverDownComplete
  rw [h0]
  dsimp only
  rw [hc]
  dsimp only
  by_cases hm : e.services.master = true
  · rw [if_pos hm, if_pos hm]
    dsimp only
    obtain ⟨ex1, he1⟩ := ext_removeReplicationGroup { stc with recoveries := stc.recoveries ++ [e] } e.replicationId
    obtain ⟨ex2, he2⟩ := ext_createReplicationGroup (removeReplicationGroup { stc with recoveries := stc.recoveries ++ [e] } e.replicationId)
    refine ⟨_, ex1 ++ ex2, rfl, ?_, ?_, ?_⟩
    · rw [he2, he1]
      show stc.update ++ ex1 ++ ex2 = _
      rw [hcu]
      simp
    · rw [(vp_createReplicationGroup _).2, (vp_removeReplicationGroup _ _).2]
      exact hcp
    · rw [(vp_createReplicationGroup _).1, (vp_removeReplicationGroup _ _).1]
      exact hcv
  · rw [if_neg hm, if_neg hm]
    obtain ⟨str, hr, hru, hrp, hrv⟩ :=
      remove_crashed stc id { e with status := ServerStatus.crashed } hge rfl
    rw [hr]
    dsimp only
    obtain ⟨ex1, he1⟩ := ext_removeReplicationGroup { str with recoveries := str.recoveries ++ [e] } e.replicationId
    obtain ⟨ex2, he2⟩ := ext_createReplicationGroup (removeReplicationGroup { str with recoveries := str.recoveries ++ [e] } e.replicationId)
    refine ⟨_, ex1 ++ ex2, rfl, ?_, ?_, ?_⟩
    · rw [he2, he1]
      show str.update ++ ex1 ++ ex2 = _
      rw [hru, hcu]
      simp
    · rw [(vp_createReplicationGroup _).2, (vp_removeReplicationGroup _ _).2]
      show str.published = _
      rw [hrp]
      exact hcp
    · rw [(vp_createReplicationGroup _).1, (vp_removeReplicationGroup _ _).1]
      show str.version = _
      rw [hrv]
      exact hcv

/-- Full effect of `serverDown` on an UP entry: exactly one batch is
published, containing the CRASHED row for the server (and the DOWN row
when it offers no MASTER service), and the pending delta is left
empty. -/
theorem serverDown_up (st : CSL) (id : ServerId) (e : Entry)
    (h0 : getEntry st id = some e) (hup : e.status = ServerStatus.up) :
    ∃ st1 b1, serverDown st id = some st1 ∧
      st1.published = st.published ++ [b1] ∧ st1.update = [] ∧
      Entry.serializePB { e with status := ServerStatus.crashed } ∈ b1.servers ∧
      (e.services.master = false → Entry.serializePB { e with status := ServerStatus.down } ∈ b1.servers) := by
  obtain ⟨st1, ex, hc, hu, hp, hv⟩ := serverDownComplete_up st id e h0 hup
  have hne : st1.update ≠ [] := by
    rw [hu]
    simp
  have hpush : pushUpdate st1 = { st1 with version := st1.version + 1, published := st1.published ++ [{ versionNumber := st1.version + 1, type := PBListType.updateList, servers := st1.update }], update := [] } := by
    unfold pushUpdate
    rw [if_neg hne]
  refine ⟨pushUpdate st1, { versionNumber := st1.version + 1, type := PBListType.updateList, servers := st1.update }, ?_, ?_, ?_, ?_, ?_⟩
  · unfold serverDown
    rw [hc]
    rfl
  · rw [hpush]
    show st1.published ++ [_] = _
    rw [hp]
  · rw [hpush]
  · show _ ∈ st1.update
    rw [hu]
    simp
  · intro hm
    show _ ∈ st1.update
    rw [hu, if_neg (by simp [hm])]
    simp

/-- The delta rows appended by `EnlistServer::execute`: the ADD row for
the freshly minted id (status UP) followed by any replication-group
rows. -/
theorem enlist_execute_update (st st' : CSL) (m : ServiceMask) (rs : Nat)
    (loc : String) (e1 e2 : Nat) (newId : ServerId)
    (h : enlistServerExecute st m rs loc e1 e2 = some (newId, st')) :
    ∃ row ex, st'.update = st.update ++ row :: ex ∧
      row.serverId = newId ∧ row.status = ServerStatus.up := by
  unfold enlistServerExecute at h
  dsimp only at h
  cases h1 : addServerInfoLogId (generateUniqueId st).2 (generateUniqueId st).1 e1 with
  | none => rw [h1] at h; cases h
  | some st2 =>
    rw [h1] at h
    dsimp only at h
    have u1 : st2.update = st.update := (upd_updateEntryAt _ _ _ _ h1).trans rfl
    cases h2 : addServerInfoLogId (if m.backup then createReplicationGroup (add st2 (generateUniqueId st).1 loc m rs) else add st2 (generateUniqueId st).1 loc m rs) (generateUniqueId st).1 e2 with
    | none => rw [h2] at h; cases h
    | some st5 =>
      rw [h2] at h
      dsimp only at h
      injection h with h
      injection h with hid hst
      subst hst
      have u2 := upd_updateEntryAt _ _ _ _ h2
      have hrow : ∃ ex0, (if m.backup then createReplicationGroup (add st2 (generateUniqueId st).1 loc m rs) else add st2 (generateUniqueId st).1 loc m rs).update =
          st2.update ++ (Entry.serializePB (if m.backup = true then { mkEntry (generateUniqueId st).1 loc m with expectedReadMBytesPerSec := rs } else mkEntry (generateUniqueId st).1 loc m)) :: ex0 := by
        by_cases hb : m.backup = true
        · rw [if_pos hb, if_pos hb]
          obtain ⟨ex0, hex⟩ := ext_createReplicationGroup (add st2 (generateUniqueId st).1 loc m rs)
          refine ⟨ex0, ?_⟩
          rw [hex]
          show (st2.update ++ [_]) ++ ex0 = _
          simp [hb]
        · rw [if_neg hb, if_neg hb]
          refine ⟨[], ?_⟩
          show st2.update ++ [_] = _
          simp [hb]
      obtain ⟨ex0, hex⟩ := hrow
      refine ⟨Entry.serializePB (if m.backup = true then { mkEntry (generateUniqueId st).1 loc m with expectedReadMBytesPerSec := rs } else mkEntry (generateUniqueId st).1 loc m), ex0, ?_, ?_, ?_⟩
      · rw [u2, hex, u1]
      · by_cases hb : m.backup = true
        · rw [if_pos hb]
          exact hid
        · rw [if_neg hb]
          exact hid
      · by_cases hb : m.backup = true
        · rw [if_pos hb]
          rfl
        · rw [if_neg hb]
          rfl

/-- C2: when `enlistServer(replacesId, ...)` finds `replacesId` still in
the list (as an UP server), the batch carrying the CRASHED row — and,
for a non-master, the DOWN removal row — for `replacesId` is published
strictly before the batch carrying the UP add row for the newly
assigned id: the two pushes append exactly `[b1, b2]` to the
publication history, in that order. -/
theorem claim2_remove_before_add (st : CSL) (replacesId newId : ServerId) (e0 : Entry)
    (services : ServiceMask) (readSpeed : Nat) (locator : String) (eid1 eid2 : Nat) (st' : CSL)
    (h0 : getEntry st replacesId = some e0)
    (hup : e0.status = ServerStatus.up)
    (hrun : enlistServer st replacesId services readSpeed locator eid1 eid2 = some (newId, st')) :
    ∃ b1 b2, st'.published = st.published ++ [b1, b2] ∧
      (∃ r ∈ b1.servers, r.serverId = replacesId ∧ r.status = ServerStatus.crashed) ∧
      (e0.services.master = false →
        ∃ r ∈ b1.servers, r.serverId = replacesId ∧ r.status = ServerStatus.down) ∧
      (∃ r ∈ b2.servers, r.serverId = newId ∧ r.status = ServerStatus.up) := by
  obtain ⟨s0, hs0, hse0, hesid⟩ := (getEntry_some_iff st replacesId e0).mp h0
  obtain ⟨st1, b1, hsd, hp1, hu1, hcm, hdm⟩ := serverDown_up st replacesId e0 h0 hup
  unfold enlistServer at hrun
  rw [if_pos (by rw [h0]; rfl)] at hrun
  rw [hsd] at hrun
  dsimp only at hrun
  cases hex : enlistServerExecute st1 services readSpeed locator eid1 eid2 with
  | none => rw [hex] at hrun; cases hrun
  | some p =>
    obtain ⟨nid2, st2⟩ := p
    rw [hex] at hrun
    dsimp only at hrun
    injection hrun with hrun
    injection hrun with hid hst
    subst hid
    obtain ⟨row, ex, hu2, hrid, hrst⟩ :=
      enlist_execute_update st1 st2 services readSpeed locator eid1 eid2 nid2 hex
    have hvpe := vp_enlistServerExecute st1 st2 services readSpeed locator eid1 eid2 nid2 hex
    have hne2 : st2.update ≠ [] := by
      rw [hu2, hu1]
      simp
    have hpush : pushUpdate st2 = { st2 with version := st2.version + 1, published := st2.published ++ [{ versionNumber := st2.version + 1, type := PBListType.updateList, servers := st2.update }], update := [] } := by
      unfold pushUpdate
      rw [if_neg hne2]
    refine ⟨b1, { versionNumber := st2.version + 1, type := PBListType.updateList, servers := st2.update }, ?_, ?_, ?_, ?_⟩
    · rw [← hst, hpush]
      show st2.published ++ [_] = _
      rw [hvpe.2, hp1]
      simp
    · exact ⟨_, hcm, hesid, rfl⟩
    · intro hm
      exact ⟨_, hdm hm, hesid, rfl⟩
    · refine ⟨row, ?_, hrid, hrst⟩
      show row ∈ st2.update
      rw [hu2, hu1]
      simp

/-- A list whose slot 1 holds an UP backup-only server, used to witness
C2. -/
def stReplace : CSL :=
  { initCSL with
    serverList := [Slot.empty, { entry := some (mkUpBackup 1), nextGenerationNumber := 1 }]
    numberOfBackups := 1 }

/-- The id/state pair returned by enlisting a backup that replaces the
occupant of `stReplace`. -/
def enlistResW : ServerId × CSL :=
  (enlistServer stReplace { index := 1, gen := 0 } { master := false, backup := true, membership := false } 0 "mock:host=n" 5 6).getD ({ index := 0, gen := 0 }, initCSL)

/-- Witness for C2 at a concrete enlistment replacing a live backup. -/
theorem claim2_witness :
    getEntry stReplace { index := 1, gen := 0 } = some (mkUpBackup 1) ∧
    (mkUpBackup 1).status = ServerStatus.up ∧
    (∃ b1 b2, enlistResW.2.published = stReplace.published ++ [b1, b2] ∧
      (∃ r ∈ b1.servers, r.serverId = { index := 1, gen := 0 } ∧ r.status = ServerStatus.crashed) ∧
      ((mkUpBackup 1).services.master = false →
        ∃ r ∈ b1.servers, r.serverId = ({ index := 1, gen := 0 } : ServerId) ∧ r.status = ServerStatus.down) ∧
      (∃ r ∈ b2.servers, r.serverId = enlistResW.1 ∧ r.status = ServerStatus.up)) := by
  refine ⟨by decide, by decide, claim2_remove_before_add stReplace { index := 1, gen := 0 } enlistResW.1 (mkUpBackup 1) { master := false, backup := true, membership := false } 0 "mock:host=n" 5 6 enlistResW.2 (by decide) (by decide) ?_⟩
  show enlistServer stReplace { index := 1, gen := 0 } { master := false, backup := true, membership := false } 0 "mock:host=n" 5 6 = some (enlistResW.1, enlistResW.2)
  decide

/-! ### Claim C7: serverDown on a backup-only server -/

/-- Slot `idx` holds no entry. -/
def emptyAt (st : CSL) (idx : Nat) : Prop :=
  ∀ s, st.serverList[idx]? = some s → s.entry = none

/-- `setReplicationId` keeps an empty slot empty and only appends rows
for servers stored in occupied slots (hence at other indices). -/
theorem setRep_preserve_empty (st st' : CSL) (sid : ServerId) (rid : Nat) (idx : Nat)
    (h : setReplicationId st sid rid = some st') (he : emptyAt st idx) :
    emptyAt st' idx ∧ ∃ ex, st'.update = st.update ++ ex ∧ ∀ r ∈ ex, r.serverId.index ≠ idx := by
  unfold setReplicationId at h
  cases hg : getEntry st sid with
  | none => rw [hg] at h; cases h
  | some e =>
    rw [hg] at h
    dsimp only at h
    by_cases hs : e.status ≠ ServerStatus.up
    · rw [if_pos hs] at h
      injection h with h
      subst h
      exact ⟨he, [], (List.append_nil _).symm, by intro r hr; cases hr⟩
    · rw [if_neg hs] at h
      injection h with h
      subst h
      obtain ⟨s0, hs0, hse0, hsid⟩ := (getEntry_some_iff st sid e).mp hg
      have hne : sid.index ≠ idx := by
        intro hcc
        have := he s0 (by rw [← hcc]; exact hs0)
        rw [hse0] at this
        cases this
      refine ⟨?_, [_], rfl, ?_⟩
      · intro s hs2
        apply he
        rw [← hs2]
        exact (modifySlot_getElem_ne _ _ _ _ (Ne.symm hne)).symm
      · intro r hr
        have hreq : r = Entry.serializePB { e with replicationId := rid } := by simpa using hr
        rw [hreq]
        show e.serverId.index ≠ idx
        rw [hsid]
        exact hne

theorem assign_preserve_empty (ids : List ServerId) (st : CSL) (rid : Nat) (idx : Nat)
    (he : emptyAt st idx) :
    emptyAt (assignReplicationGroup st rid ids).2 idx ∧
    ∃ ex, (assignReplicationGroup st rid ids).2.update = st.update ++ ex ∧
      ∀ r ∈ ex, r.serverId.index ≠ idx := by
  induction ids generalizing st with
  | nil => exact ⟨he, [], (List.append_nil _).symm, by intro r hr; cases hr⟩
  | cons bid rest ih =>
    unfold assignReplicationGroup
    cases hs : setReplicationId st bid rid with
    | none => exact ⟨he, [], (List.append_nil _).symm, by intro r hr; cases hr⟩
    | some st1 =>
      obtain ⟨he1, ex1, hu1, hr1⟩ := setRep_preserve_empty st st1 bid rid idx hs he
      obtain ⟨he2, ex2, hu2, hr2⟩ := ih st1 he1
      refine ⟨he2, ex1 ++ ex2, by rw [hu2, hu1, List.append_assoc], ?_⟩
      intro r hr
      rcases List.mem_append.mp hr with h | h
      · exact hr1 r h
      · exact hr2 r h

theorem rrgLoop_preserve_empty (is : List Nat) (gid : Nat) (st : CSL) (group : List ServerId)
    (idx : Nat) (he : emptyAt st idx) :
    emptyAt (rrgLoop gid st group is) idx ∧
    ∃ ex, (rrgLoop gid st group is).update = st.update ++ ex ∧
      ∀ r ∈ ex, r.serverId.index ≠ idx := by
  induction is generalizing st group with
  | nil => exact ⟨he, [], (List.append_nil _).symm, by intro r hr; cases hr⟩
  | cons i rest ih =>
    rw [rrgLoop_cons]
    generalize (match (st.serverList.getD i Slot.empty).entry with
      | some e => if e.isBackup && e.replicationId == gid then group ++ [e.serverId] else group
      | none => group) = grp
    by_cases hg : grp = []
    · rw [if_pos hg]
      exact ih st grp he
    · rw [if_neg hg]
      obtain ⟨he1, ex1, hu1, hr1⟩ := assign_preserve_empty grp st 0 idx he
      obtain ⟨he2, ex2, hu2, hr2⟩ := ih (assignReplicationGroup st 0 grp).2 grp he1
      refine ⟨he2, ex1 ++ ex2, by rw [hu2, hu1, List.append_assoc], ?_⟩
      intro r hr
      rcases List.mem_append.mp hr with h | h
      · exact hr1 r h
      · exact hr2 r h

theorem crgLoop_preserve_empty (fuel : Nat) (st : CSL) (free : List ServerId) (idx : Nat)
    (he : emptyAt st idx) :
    emptyAt (crgLoop st free fuel) idx ∧
    ∃ ex, (crgLoop st free fuel).update = st.update ++ ex ∧
      ∀ r ∈ ex, r.serverId.index ≠ idx := by
  induction fuel generalizing st free with
  | zero => exact ⟨he, [], (List.append_nil _).symm, by intro r hr; cases hr⟩
  | succ n ih =>
    unfold crgLoop
    split
    · obtain ⟨he1, ex1, hu1, hr1⟩ := assign_preserve_empty ((free.drop (free.length - 3)).reverse) st st.nextReplicationId idx he
      obtain ⟨he2, ex2, hu2, hr2⟩ := ih { (assignReplicationGroup st st.nextReplicationId ((free.drop (free.length - 3)).reverse)).2 with nextReplicationId := (assignReplicationGroup st st.nextReplicationId ((free.drop (free.length - 3)).reverse)).2.nextReplicationId + 1 } (free.take (free.length - 3)) he1
      refine ⟨he2, ex1 ++ ex2, ?_, ?_⟩
      · rw [hu2]
        show (assignReplicationGroup st st.nextReplicationId ((free.drop (free.length - 3)).reverse)).2.update ++ ex2 = _
        rw [hu1, List.append_assoc]
      · intro r hr
        rcases List.mem_append.mp hr with h | h
        · exact hr1 r h
        · exact hr2 r h
    · exact ⟨he, [], (List.append_nil _).symm, by intro r hr; cases hr⟩

theorem rrg_preserve_empty (st : CSL) (gid : Nat) (idx : Nat) (he : emptyAt st idx) :
    emptyAt (removeReplicationGroup st gid) idx ∧
    ∃ ex, (removeReplicationGroup st gid).update = st.update ++ ex ∧
      ∀ r ∈ ex, r.serverId.index ≠ idx := by
  unfold removeReplicationGroup
  split
  · exact ⟨he, [], (List.append_nil _).symm, by intro r hr; cases hr⟩
  · exact rrgLoop_preserve_empty _ gid st [] idx he

theorem crg_preserve_empty (st : CSL) (idx : Nat) (he : emptyAt st idx) :
    emptyAt (createReplicationGroup st) idx ∧
    ∃ ex, (createReplicationGroup st).update = st.update ++ ex ∧
      ∀ r ∈ ex, r.serverId.index ≠ idx :=
  crgLoop_preserve_empty _ st _ idx he

theorem rec_crgLoop (fuel : Nat) (st : CSL) (free : List ServerId) :
    (crgLoop st free fuel).recoveries = st.recoveries := by
  induction fuel generalizing st free with
  | zero => rfl
  | succ n ih =>
    unfold crgLoop
    split
    · rw [ih]
      exact (frame_assignReplicationGroup _ st st.nextReplicationId).2.2.2.1
    · rfl

theorem rec_createReplicationGroup (st : CSL) :
    (createReplicationGroup st).recoveries = st.recoveries :=
  rec_crgLoop _ st _

theorem rec_removeReplicationGroup (st : CSL) (gid : Nat) :
    (removeReplicationGroup st gid).recoveries = st.recoveries := by
  unfold removeReplicationGroup
  split
  · rfl
  · exact (frame_rrgLoop _ gid st []).2.2.2.1

theorem emptyAt_pushUpdate (st : CSL) (idx : Nat) (he : emptyAt st idx) :
    emptyAt (pushUpdate st) idx := by
  unfold pushUpdate
  split
  · exact he
  · intro s hs
    exact he s hs

/-- Full effect of `remove` on an entry that is already CRASHED,
including the slot being emptied and the recovery log untouched. -/
theorem remove_crashed_full (st : CSL) (id : ServerId) (e : Entry)
    (h0 : getEntry st id = some e) (hcr : e.status = ServerStatus.crashed) :
    ∃ st1, remove st id = some st1 ∧
      st1.update = st.update ++ [Entry.serializePB { e with status := ServerStatus.down }] ∧
      st1.published = st.published ∧ st1.version = st.version ∧
      st1.recoveries = st.recoveries ∧
      emptyAt st1 id.index := by
  obtain ⟨s0, hs0, hse0, hsid⟩ := (getEntry_some_iff st id e).mp h0
  have hno : crashed st id = some st := by
    unfold crashed
    rw [h0]
    dsimp only
    rw [if_pos hcr]
  unfold remove
  rw [h0]
  dsimp only
  rw [hno]
  dsimp only
  rw [h0]
  dsimp only
  refine ⟨_, rfl, rfl, rfl, rfl, rfl, ?_⟩
  intro s hs
  rw [show ({ st with serverList := modifySlot st.serverList id.index (fun s => { s with entry := none }), update := st.update ++ [Entry.serializePB { e with status := ServerStatus.down }], events := st.events ++ [({ e with status := ServerStatus.down }, ChangeKind.serverRemoved)] } : CSL).serverList = modifySlot st.serverList id.index (fun s => { s with entry := none }) from rfl, modifySlot_getElem_self, hs0] at hs
  injection hs with hs
  rw [← hs]

/-- C7 counterexample: for a backup-only (non-MASTER) UP server,
`serverDown` still hands the snapshot to
`MasterRecoveryManager::startMasterRecovery` — the recovery log grows —
contradicting the claim that "master recovery is not invoked for
it". -/
theorem claim7_counterexample :
    ∃ st1, serverDown stReplace { index := 1, gen := 0 } = some st1 ∧
      (mkUpBackup 1).services.master = false ∧
      stReplace.recoveries = [] ∧ st1.recoveries = [mkUpBackup 1] := by
  refine ⟨(serverDown stReplace { index := 1, gen := 0 }).getD initCSL, ?_, ?_, ?_, ?_⟩
  · decide
  · decide
  · decide
  · decide

/-- C7 (amended): `serverDown` on an UP server without the MASTER
service (from a state with an empty pending delta, as left by every
public operation) publishes one batch whose rows for that server are
exactly the CRASHED row followed by the DOWN row, and empties the
server's slot — but master recovery IS invoked for it: the pre-crash
snapshot is handed to `startMasterRecovery` unconditionally. -/
theorem claim7_server_down_backup_only (st : CSL) (id : ServerId) (e : Entry)
    (h0 : getEntry st id = some e) (hup : e.status = ServerStatus.up)
    (hm : e.services.master = false) (hupd : st.update = []) :
    ∃ st1 b1, serverDown st id = some st1 ∧
      st1.published = st.published ++ [b1] ∧
      b1.servers.filter (fun r => r.serverId == id) =
        [Entry.serializePB { e with status := ServerStatus.crashed },
         Entry.serializePB { e with status := ServerStatus.down }] ∧
      emptyAt st1 id.index ∧
      st1.recoveries = st.recoveries ++ [e] := by
  obtain ⟨s0, hs0, hse0, hesid⟩ := (getEntry_some_iff st id e).mp h0
  obtain ⟨stc, hc, hcu, hcp, hcv, hge, hcrec⟩ := crashed_up st id e h0 hup
  obtain ⟨str, hr, hru, hrp, hrv, hrrec, hremp⟩ :=
    remove_crashed_full stc id { e with status := ServerStatus.crashed } hge rfl
  unfold serverDown serverDownComplete
  rw [h0]
  dsimp only
  rw [hc]
  dsimp only
  rw [if_neg (by simp [hm]), hr]
  dsimp only
  obtain ⟨hemp4, ex1, hu4, hnr4⟩ :=
    rrg_preserve_empty { str with recoveries := str.recoveries ++ [e] } e.replicationId id.index hremp
  obtain ⟨hemp5, ex2, hu5, hnr5⟩ :=
    crg_preserve_empty (removeReplicationGroup { str with recoveries := str.recoveries ++ [e] } e.replicationId) id.index hemp4
  set st3 : CSL := { str with recoveries := str.recoveries ++ [e] } with hst3
  set stf : CSL := createReplicationGroup (removeReplicationGroup st3 e.replicationId) with hstf
  have hfu : stf.update = ([Entry.serializePB { e with status := ServerStatus.crashed }] ++ [Entry.serializePB { e with status := ServerStatus.down }]) ++ (ex1 ++ ex2) := by
    rw [hu5, hu4]
    show str.update ++ ex1 ++ ex2 = _
    rw [hru, hcu, hupd]
    simp
  have hnot : ∀ (ex : List PBEntry), (∀ r ∈ ex, r.serverId.index ≠ id.index) →
      ex.filter (fun r => r.serverId == id) = [] := by
    intro ex hx
    rw [List.filter_eq_nil_iff]
    intro r hrr hbeq
    have hre : r.serverId = id := by simpa using hbeq
    exact hx r hrr (by rw [hre])
  have hne : stf.update ≠ [] := by
    rw [hfu]
    simp
  have hpush : pushUpdate stf = { stf with version := stf.version + 1, published := stf.published ++ [{ versionNumber := stf.version + 1, type := PBListType.updateList, servers := stf.update }], update := [] } := by
    unfold pushUpdate
    rw [if_neg hne]
  refine ⟨pushUpdate stf, { versionNumber := stf.version + 1, type := PBListType.updateList, servers := stf.update }, rfl, ?_, ?_, ?_, ?_⟩
  · rw [hpush]
    show stf.published ++ [_] = _
    have hpub : stf.published = st.published := by
      rw [hstf, (vp_createReplicationGroup _).2, (vp_removeReplicationGroup _ _).2]
      show str.published = _
      rw [hrp, hcp]
    rw [hpub]
  · show stf.update.filter _ = _
    rw [hfu, List.filter_append, List.filter_append, List.filter_append, hnot ex1 hnr4, hnot ex2 hnr5]
    have hcid : ((Entry.serializePB { e with status := ServerStatus.crashed }).serverId == id) = true := by
      show (e.serverId == id) = true
      rw [hesid]
      simp
    have hdid : ((Entry.serializePB { e with status := ServerStatus.down }).serverId == id) = true := by
      show (e.serverId == id) = true
      rw [hesid]
      simp
    simp [List.filter, hcid, hdid]
  · exact emptyAt_pushUpdate _ _ hemp5
  · rw [hpush]
    show stf.recoveries = _
    rw [hstf, rec_createReplicationGroup, rec_removeReplicationGroup]
    show str.recoveries ++ [e] = _
    rw [hrrec, hcrec]

/-- Witness for the amended C7 at a concrete backup-only server. -/
theorem claim7_witness :
    getEntry stReplace { index := 1, gen := 0 } = some (mkUpBackup 1) ∧
    (mkUpBackup 1).status = ServerStatus.up ∧
    (mkUpBackup 1).services.master = false ∧
    stReplace.update = [] ∧
    (∃ st1 b1, serverDown stReplace { index := 1, gen := 0 } = some st1 ∧
      st1.published = stReplace.published ++ [b1] ∧
      b1.servers.filter (fun r => r.serverId == ({ index := 1, gen := 0 } : ServerId)) =
        [Entry.serializePB { mkUpBackup 1 with status := ServerStatus.crashed },
         Entry.serializePB { mkUpBackup 1 with status := ServerStatus.down }] ∧
      emptyAt st1 ({ index := 1, gen := 0 } : ServerId).index ∧
      st1.recoveries = stReplace.recoveries ++ [mkUpBackup 1]) :=
  ⟨by decide, by decide, by decide, by decide,
   claim7_server_down_backup_only stReplace { index := 1, gen := 0 } (mkUpBackup 1)
     (by decide) (by decide) (by decide) (by decide)⟩

/-! ### Claim C9: round-robin coverage of getRandomHost -/

theorem listSwap_cons (a : Nat) (l : List Nat) (i j : Nat) :
    listSwap (a :: l) (i + 1) (j + 1) = a :: listSwap l i j := rfl

theorem listSwap_zero_succ (a : Nat) (l : List Nat) (j : Nat) :
    listSwap (a :: l) 0 (j + 1) = l.getD j 0 :: l.set j a := rfl

theorem listSwap_zero_zero (a : Nat) (l : List Nat) :
    listSwap (a :: l) 0 0 = a :: l := rfl

theorem listSwap_length (l : List Nat) (i j : Nat) :
    (listSwap l i j).length = l.length := by
  simp [listSwap]

/-- Moving a stored element to the front while overwriting its position
is a permutation. -/
theorem getD_set_perm : ∀ (l : List Nat) (j : Nat) (a : Nat), j < l.length →
    List.Perm (l.getD j 0 :: l.set j a) (a :: l) := by
  intro l
  induction l with
  | nil =>
    intro j a h
    cases h
  | cons b t ih =>
    intro j a h
    cases j with
    | zero => exact List.Perm.swap a b t
    | succ j =>
      have ih' := ih j a (by simpa using h)
      exact (List.Perm.swap b (t.getD j 0) (t.set j a)).trans
        ((List.Perm.cons b ih').trans (List.Perm.swap a b t))

/-- `std::swap` of two positions is a permutation. -/
theorem listSwap_perm : ∀ (l : List Nat) (i j : Nat), i ≤ j → j < l.length →
    List.Perm (listSwap l i j) l := by
  intro l
  induction l with
  | nil =>
    intro i j hij h
    cases h
  | cons a t ih =>
    intro i j hij h
    cases i with
    | zero =>
      cases j with
      | zero => rw [listSwap_zero_zero]
      | succ j =>
        rw [listSwap_zero_succ]
        exact getD_set_perm t j a (by simpa using h)
    | succ i =>
      cases j with
      | zero => exact absurd hij (by omega)
      | succ j =>
        rw [listSwap_cons]
        exact List.Perm.cons a (ih i j (by omega) (by simpa using h))

/-- A swap with both positions at or beyond the cursor permutes the
suffix from the cursor on. -/
theorem listSwap_drop_perm : ∀ (l : List Nat) (i j : Nat), i ≤ j → j < l.length →
    List.Perm ((listSwap l i j).drop i) (l.drop i) := by
  intro l
  induction l with
  | nil =>
    intro i j hij h
    cases h
  | cons a t ih =>
    intro i j hij h
    cases i with
    | zero => simpa using listSwap_perm (a :: t) 0 j (by omega) h
    | succ i =>
      cases j with
      | zero => exact absurd hij (by omega)
      | succ j =>
        rw [listSwap_cons, List.drop_succ_cons, List.drop_succ_cons]
        exact ih i j (by omega) (by simpa using h)

theorem runSel_append (s : SelState) (rs1 rs2 : List Nat) :
    runSel s (rs1 ++ rs2) = runSel s rs1 ++ runSel (runSelState s rs1) rs2 := by
  induction rs1 generalizing s with
  | nil => rfl
  | cons r rs ih =>
    show (getRandomHost r s).1 :: runSel (getRandomHost r s).2 (rs ++ rs2) = _
    rw [ih]
    rfl

/-- The first call from an exhausted cursor behaves like a call from
cursor 0 (the `numUsedHosts = 0` reset). -/
theorem getRandomHost_reset (r : Nat) (ord : List Nat) (m : Nat) (h : m ≥ ord.length) :
    getRandomHost r ⟨ord, m⟩ = getRandomHost r ⟨ord, 0⟩ := by
  unfold getRandomHost
  dsimp only
  rw [if_pos h]
  by_cases h0 : (0 : Nat) ≥ ord.length
  · rw [if_pos h0]
  · rw [if_neg h0]

theorem runSel_reset (rs : List Nat) (ord : List Nat) (m : Nat) (h : m ≥ ord.length) :
    runSel ⟨ord, m⟩ rs = runSel ⟨ord, 0⟩ rs := by
  cases rs with
  | nil => rfl
  | cons r rs =>
    show (getRandomHost r ⟨ord, m⟩).1 :: runSel (getRandomHost r ⟨ord, m⟩).2 rs = _
    rw [getRandomHost_reset r ord m h]
    rfl

/-- One round: starting at cursor `i` with exactly `|ord| - i` randoms,
`getRandomHost` emits a permutation of the suffix of `hostsOrder` from
the cursor on, ends with the cursor at the list length, and leaves
`hostsOrder` a permutation of what it was. -/
theorem round_perm : ∀ (rs : List Nat) (ord : List Nat) (i : Nat),
    i + rs.length = ord.length →
    List.Perm (runSel ⟨ord, i⟩ rs) (ord.drop i) ∧
    (runSelState ⟨ord, i⟩ rs).numUsedHosts = ord.length ∧
    (runSelState ⟨ord, i⟩ rs).hostsOrder.length = ord.length ∧
    List.Perm (runSelState ⟨ord, i⟩ rs).hostsOrder ord := by
  intro rs
  induction rs with
  | nil =>
    intro ord i h
    refine ⟨by simp [runSel, List.drop_length, show i = ord.length from by simpa using h], ?_, rfl, List.Perm.refl _⟩
    show i = ord.length
    simpa using h
  | cons r rs ih =>
    intro ord i h
    have hi : i < ord.length := by
      simp at h
      omega
    have hni : ¬ i ≥ ord.length := by omega
    have hj : i + r % (ord.length - i) < ord.length := by
      have := Nat.mod_lt r (show 0 < ord.length - i from by omega)
      omega
    have hij : i ≤ i + r % (ord.length - i) := Nat.le_add_right _ _
    have hg : getRandomHost r ⟨ord, i⟩ =
        ((listSwap ord i (i + r % (ord.length - i))).getD i 0,
         ⟨listSwap ord i (i + r % (ord.length - i)), i + 1⟩) := by
      unfold getRandomHost
      dsimp only
      rw [if_neg hni]
    have hlen' : (listSwap ord i (i + r % (ord.length - i))).length = ord.length :=
      listSwap_length _ _ _
    have ih' := ih (listSwap ord i (i + r % (ord.length - i))) (i + 1)
      (by rw [hlen']; simp at h; omega)
    have hswap := listSwap_perm ord i (i + r % (ord.length - i)) hij hj
    have hdropswap := listSwap_drop_perm ord i (i + r % (ord.length - i)) hij hj
    refine ⟨?_, ?_, ?_, ?_⟩
    · show List.Perm ((getRandomHost r ⟨ord, i⟩).1 :: runSel (getRandomHost r ⟨ord, i⟩).2 rs) _
      rw [hg]
      refine ((List.Perm.cons _ ih'.1).trans ?_)
      have hcons : (listSwap ord i (i + r % (ord.length - i))).drop i =
          (listSwap ord i (i + r % (ord.length - i))).getD i 0 ::
          (listSwap ord i (i + r % (ord.length - i))).drop (i + 1) := by
        rw [List.drop_eq_getElem_cons (show i < (listSwap ord i (i + r % (ord.length - i))).length from by rw [hlen']; exact hi), List.getD_eq_getElem _ 0 (by rw [hlen']; exact hi)]
      rw [← hcons]
      exact hdropswap
    · show (runSelState (getRandomHost r ⟨ord, i⟩).2 rs).numUsedHosts = _
      rw [hg]
      rw [ih'.2.1, hlen']
    · show (runSelState (getRandomHost r ⟨ord, i⟩).2 rs).hostsOrder.length = _
      rw [hg]
      rw [ih'.2.2.1, hlen']
    · show List.Perm (runSelState (getRandomHost r ⟨ord, i⟩).2 rs).hostsOrder _
      rw [hg]
      exact ih'.2.2.2.trans hswap

/-- C9: for a fixed non-empty host list (`hostsOrder` a permutation of
`0..N-1`), every host index is returned at least once in any `2·N`
consecutive `getRandomHost` calls, whatever the stream of
`generateRandom()` values: after at most `N - cursor` calls the current
round ends with the cursor exhausted, and the next `N` calls form a
full round emitting a permutation of the whole (still
permutation-valued) order array. -/
theorem claim9_round_robin_coverage (s : SelState) (n : Nat) (rs : List Nat) (h : Nat)
    (hperm : List.Perm s.hostsOrder (List.range n)) (hn : 0 < n)
    (hlen : rs.length = 2 * n) (hh : h < n) :
    h ∈ runSel s rs := by
  obtain ⟨ord, c⟩ := s
  have hol : ord.length = n := hperm.length_eq.trans (List.length_range n)
  set c' := if c ≥ n then 0 else c with hc'
  have hc'lt : c' < n := by
    rw [hc']
    split <;> omega
  have hnorm : runSel ⟨ord, c⟩ rs = runSel ⟨ord, c'⟩ rs := by
    rw [hc']
    split
    · next hcase => exact runSel_reset rs ord c (by rw [hol]; exact hcase)
    · rfl
  rw [hnorm]
  rw [show rs = rs.take (n - c') ++ rs.drop (n - c') from (List.take_append_drop _ _).symm,
     runSel_append]
  have hlen1 : (rs.take (n - c')).length = n - c' := by
    rw [List.length_take]
    omega
  have hround1 := round_perm (rs.take (n - c')) ord c' (by rw [hlen1, hol]; omega)
  set s1 := runSelState ⟨ord, c'⟩ (rs.take (n - c')) with hs1
  have hc1 : s1.numUsedHosts = ord.length := hround1.2.1
  have hlo1 : s1.hostsOrder.length = ord.length := hround1.2.2.1
  have hp1 : List.Perm s1.hostsOrder ord := hround1.2.2.2
  have hreset : runSel s1 (rs.drop (n - c')) = runSel ⟨s1.hostsOrder, 0⟩ (rs.drop (n - c')) := by
    rw [show s1 = ⟨s1.hostsOrder, s1.numUsedHosts⟩ from rfl]
    exact runSel_reset _ _ _ (by rw [hc1, hlo1])
  rw [hreset]
  rw [show rs.drop (n - c') = (rs.drop (n - c')).take n ++ (rs.drop (n - c')).drop n from
      (List.take_append_drop _ _).symm, runSel_append]
  have hlen2 : ((rs.drop (n - c')).take n).length = n := by
    rw [List.length_take, List.length_drop]
    omega
  have hround2 := round_perm ((rs.drop (n - c')).take n) s1.hostsOrder 0 (by rw [hlen2, hlo1, hol]; omega)
  have hmem : h ∈ runSel ⟨s1.hostsOrder, 0⟩ ((rs.drop (n - c')).take n) := by
    apply hround2.1.mem_iff.mpr
    rw [List.drop_zero]
    exact (hp1.trans hperm).mem_iff.mpr (List.mem_range.mpr hh)
  exact List.mem_append.mpr (Or.inr (List.mem_append.mpr (Or.inl hmem)))

/-- Witness for C9: three hosts, an exhausted cursor, six calls. -/
theorem claim9_witness :
    List.Perm (⟨[1, 0, 2], 5⟩ : SelState).hostsOrder (List.range 3) ∧ 0 < 3 ∧
    ([1, 0, 2, 1, 0, 2] : List Nat).length = 2 * 3 ∧ 2 < 3 ∧
    2 ∈ runSel ⟨[1, 0, 2], 5⟩ [1, 0, 2, 1, 0, 2] :=
  ⟨by decide, by decide, by decide, by decide,
   claim9_round_robin_coverage ⟨[1, 0, 2], 5⟩ 3 [1, 0, 2, 1, 0, 2] 2
     (by decide) (by decide) (by decide) (by decide)⟩
